import Mathlib

/-!
Verification of the Contract_LLM_Creator core against its specification.

The Python sources are embedded shallowly:
* `src/src/generation/local_llm.py` — the validation/retry controller
  (`LocalLLM.generate_with_retry`), the repetition detector and the
  payment-terms validator;
* `src/src/retrieval/bm25.py` — the BM25 index, shingle-based
  diversification and the retrieval selection loop;
* `src/src/cleaning/precedent_cleaner.py` — the precedent sanitizer
  (anonymization, sentence-safe truncation, the cleaning pipeline).

Python floats are modelled as real numbers (`ℝ`) where the code computes
scores, and as rationals (`ℚ`) where the code only compares ratios against
a fixed threshold. Python strings are modelled as `List Char` / `String`.
-/

namespace ContractLLM

/-! ## Retry controller (`LocalLLM.generate_with_retry`, local_llm.py 110-171)

The external generation call `_chat_once` is abstracted by an oracle
`gen : Nat → String` giving the text produced at each attempt index
(the prompt mutation and sampling parameters of attempt `n` are functions
of `n` alone, so the oracle subsumes them).  The loop state is
`(attempt, last_text, last_err)` exactly as in the Python code; the result
is the returned triple `(text, err_code, attempts_used)` paired with the
number of generation calls performed. -/

/-- The retryable kinds hard-coded in `generate_with_retry`
(local_llm.py line 154: `retryable = {"too_short", "repetition_detected"}`). -/
def retryableKinds : List String := ["too_short", "repetition_detected"]

/-- The `while attempt <= self.cfg.max_retries` loop of
`generate_with_retry`.  Faithful to the source: on a retryable error the
loop re-enters with `last_text := text` and `last_err` UNCHANGED (the
Python code never assigns `last_err`); on any other error it returns
`(text, err, attempt + 1)` at once; when the bound is exhausted it
returns `(last_text, last_err, attempt)`.  The second component of the
result counts the generation calls made. -/
def gwrGo (maxRetries : Nat) (gen : Nat → String)
    (validator : Option (String → Option String)) :
    Nat → String → Option String → (String × Option String × Nat) × Nat
  | attempt, lastText, lastErr =>
    if _h : attempt ≤ maxRetries then
      let text := gen attempt
      match validator with
      | none => ((text, none, attempt + 1), 1)
      | some v =>
        match v text with
        | none => ((text, none, attempt + 1), 1)
        | some err =>
          if err ∈ retryableKinds then
            let r := gwrGo maxRetries gen validator (attempt + 1) text lastErr
            (r.1, r.2 + 1)
          else ((text, some err, attempt + 1), 1)
    else ((lastText, lastErr, attempt), 0)
  termination_by attempt _ _ => maxRetries + 1 - attempt
  decreasing_by omega

/-- `LocalLLM.generate_with_retry`: result triple `(text, err_code,
attempts_used)` (local_llm.py 110-171). -/
def generateWithRetry (maxRetries : Nat) (gen : Nat → String)
    (validator : Option (String → Option String)) :
    String × Option String × Nat :=
  (gwrGo maxRetries gen validator 0 "" none).1

/-- Number of `_chat_once` generation calls performed by one
`generate_with_retry` run. -/
def generateWithRetryCalls (maxRetries : Nat) (gen : Nat → String)
    (validator : Option (String → Option String)) : Nat :=
  (gwrGo maxRetries gen validator 0 "" none).2

/-! ## BM25 tokenization (bm25.py `_word_re`, `tokenize_for_bm25`)

`_word_re = [A-Za-zА-Яа-яЁё0-9]+` applied to the lowercased text.
`str.lower()` on this character set maps `A-Z` down by 32, the Cyrillic
range `А-Я` (U+0410..U+042F) down by 0x20 and `Ё` (U+0401) to `ё`
(U+0451). -/

/-- Characters of the `_word_re` class `[A-Za-zА-Яа-яЁё0-9]`. -/
def bm25WordChar (c : Char) : Bool :=
  (('A' ≤ c && c ≤ 'Z') || ('a' ≤ c && c ≤ 'z') || ('0' ≤ c && c ≤ '9')
    || (0x410 ≤ c.toNat && c.toNat ≤ 0x44F)
    || c.toNat = 0x401 || c.toNat = 0x451)

/-- Python `str.lower()` restricted to Latin and Cyrillic letters. -/
def toLowerRu (c : Char) : Char :=
  if 'A' ≤ c && c ≤ 'Z' then Char.ofNat (c.toNat + 32)
  else if 0x410 ≤ c.toNat && c.toNat ≤ 0x42F then Char.ofNat (c.toNat + 0x20)
  else if c.toNat = 0x401 then Char.ofNat 0x451
  else c

/-- Maximal runs of characters satisfying `p` (the semantics of
`re.findall` for a one-class `+` pattern). -/
def splitRuns (p : Char → Bool) : List Char → List (List Char)
  | [] => []
  | c :: cs =>
      let rest := splitRuns p cs
      if p c then
        match cs, rest with
        | c2 :: _, r :: rs => if p c2 then (c :: r) :: rs else [c] :: rest
        | _, _ => [c] :: rest
      else rest

/-- `tokenize_for_bm25` (bm25.py 93-98). -/
def tokenizeForBM25 (s : String) : List String :=
  (splitRuns bm25WordChar (s.data.map toLowerRu)).map List.asString

/-! ## BM25 index (`BM25Index`, bm25.py 118-194)

The index is a value derived from the document list: term frequencies,
document lengths, document frequencies, corpus size and average document
length, exactly as `_build` computes them.  Scores are real numbers
(Python floats are modelled by `ℝ`). -/

/-- `Doc` (bm25.py 15-22). -/
structure Doc where
  doc_id : String
  section_group : String
  section_id : String
  language : String
  title : String
  text : String

/-- The default document used for out-of-range index access. -/
def emptyDoc : Doc := ⟨"", "", "", "", "", ""⟩

/-- Per-document token list: `tokenize_for_bm25(f"{d.title}\n{d.text}")`
(bm25.py 144). -/
def docTokens (d : Doc) : List String :=
  tokenizeForBM25 (d.title ++ "\n" ++ d.text)

/-- All token lists of the indexed corpus. -/
def bmToks (docs : List Doc) : List (List String) := docs.map docTokens

/-- Term frequency `self.tf[i][t]` (0 when absent). -/
def bmTF (docs : List Doc) (i : Nat) (t : String) : Nat :=
  ((bmToks docs).getD i []).count t

/-- Document length `self.doc_len[i]`. -/
def bmDocLen (docs : List Doc) (i : Nat) : Nat :=
  ((bmToks docs).getD i []).length

/-- Corpus size `self.N`. -/
def bmN (docs : List Doc) : Nat := docs.length

/-- Document frequency `self.df[t]` (0 when absent): the number of
documents whose frequency table contains `t`. -/
def bmDF (docs : List Doc) (t : String) : Nat :=
  ((bmToks docs).filter (fun ts => t ∈ ts)).length

/-- Average document length: `total_len / N if N else 1.0` (bm25.py 156). -/
noncomputable def bmAvgdl (docs : List Doc) : ℝ :=
  if bmN docs = 0 then 1
  else (((bmToks docs).map List.length).sum : ℝ) / (bmN docs : ℝ)

/-- `BM25Index._idf` (bm25.py 158-162): zero for zero document frequency,
else `ln(1 + (N - df + 0.5) / (df + 0.5))`. -/
noncomputable def bmIdf (docs : List Doc) (t : String) : ℝ :=
  if bmDF docs t = 0 then 0
  else Real.log (1 + ((bmN docs : ℝ) - (bmDF docs t : ℝ) + 0.5)
    / ((bmDF docs t : ℝ) + 0.5))

/-- `dl = self.doc_len[doc_idx] or 1` (bm25.py 169). -/
def bmDlEff (docs : List Doc) (i : Nat) : Nat :=
  if bmDocLen docs i = 0 then 1 else bmDocLen docs i

/-- `avgdl = self.avgdl or 1.0` (bm25.py 170). -/
noncomputable def bmAvgdlEff (docs : List Doc) : ℝ :=
  if bmAvgdl docs = 0 then 1 else bmAvgdl docs

/-- The length-normalization factor `k1 * (1 - b + b * (dl / avgdl))`
of the scoring denominator (bm25.py 178). -/
noncomputable def bmDenomK (k1 b : ℝ) (docs : List Doc) (i : Nat) : ℝ :=
  k1 * (1 - b + b * ((bmDlEff docs i : ℝ) / bmAvgdlEff docs))

/-- One term's contribution `idf * (f * (k1 + 1) / (f + k1 * (...)))`
to the score of document `i`, as a function of the frequency `f`
(bm25.py 173-179). -/
noncomputable def bmTermContribution (k1 b : ℝ) (docs : List Doc) (i : Nat)
    (t : String) (f : Nat) : ℝ :=
  bmIdf docs t * (((f : ℝ) * (k1 + 1)) / ((f : ℝ) + bmDenomK k1 b docs i))

/-- `BM25Index.score` (bm25.py 164-180): zero for an empty query, else a
fold over the query tokens skipping terms absent from the document. -/
noncomputable def bmScore (k1 b : ℝ) (docs : List Doc) (q : List String)
    (i : Nat) : ℝ :=
  if q = [] then 0
  else q.foldl (fun acc t =>
    if bmTF docs i t = 0 then acc
    else acc + bmTermContribution k1 b docs i t (bmTF docs i t)) 0

/-- Default `k1 = 1.5` (bm25.py 119, and every retrieval call site). -/
def bmK1 : ℝ := 1.5

/-- Default `b = 0.75` (bm25.py 119, and every retrieval call site). -/
def bmB : ℝ := 0.75

/-! ## Diversification (bm25.py 385-400) and the retrieval selection loop
(bm25.py 488-509 / 575-596)

`_shingles` builds the set of contiguous 7-token windows of a text;
`_too_similar` compares two texts by the Jaccard similarity of their
shingle sets against the 0.55 threshold.  The float ratio is modelled
exactly by `ℚ`.  The selection loop shared verbatim by
`retrieve_payment_terms_bm25` and `retrieve_delivery_terms_bm25` walks
the ranked hits, skips already-used `doc_id`s, masks the candidate text
(`mask_form_variables`, abstracted as a parameter `mask`), skips
candidates too similar to an already-chosen one, and stops at `top_k`. -/

/-- `_shingles` (bm25.py 385-389): the set of `" "`-joined contiguous
`k`-token windows; empty when the text has fewer than `k` tokens. -/
def shingles (t : String) (k : Nat) : Finset String :=
  let w := tokenizeForBM25 t
  if w.length < k then ∅
  else ((List.range (w.length - k + 1)).map
    (fun i => String.intercalate " " ((w.drop i).take k))).toFinset

/-- `_too_similar` (bm25.py 391-400) with the default `threshold = 0.55`:
`False` when either 7-shingle set is empty or the union is empty, else
`inter / union >= 0.55`. -/
def tooSimilar (a b : String) : Bool :=
  let sa := shingles a 7
  let sb := shingles b 7
  if sa = ∅ ∨ sb = ∅ then false
  else
    let inter := (sa ∩ sb).card
    let union := (sa ∪ sb).card
    if union = 0 then false
    else decide ((0.55 : ℚ) ≤ (inter : ℚ) / (union : ℚ))

/-- The 7-token-shingle-set Jaccard similarity of the claim, with a text
of fewer than 7 tokens having similarity 0 to everything. -/
def jaccardSim (a b : String) : ℚ :=
  let sa := shingles a 7
  let sb := shingles b 7
  if sa = ∅ ∨ sb = ∅ then 0
  else ((sa ∩ sb).card : ℚ) / ((sa ∪ sb).card : ℚ)

/-- The `for i, _score in hits` selection loop of
`retrieve_payment_terms_bm25` (bm25.py 488-509), identical in
`retrieve_delivery_terms_bm25` (bm25.py 575-596).  `mask` abstracts
`mask_form_variables(_, form_input)`; the scores attached to the hits
are never used by the loop, so their type is a parameter. -/
def selectDiverseGo {α : Type} (docs : List Doc) (mask : String → String)
    (topK : Nat) : List (Nat × α) → List String → List String → List String
  | [], chosen, _used => chosen
  | (i, _s) :: hits, chosen, used =>
    let d := docs.getD i emptyDoc
    if d.doc_id ≠ "" ∧ d.doc_id ∈ used then
      selectDiverseGo docs mask topK hits chosen used
    else
      let candidate := mask d.text
      if chosen.any (fun prev => tooSimilar candidate prev) then
        selectDiverseGo docs mask topK hits chosen used
      else
        let chosen' := chosen ++ [candidate]
        let used' := if d.doc_id ≠ "" then d.doc_id :: used else used
        if topK ≤ chosen'.length then chosen'
        else selectDiverseGo docs mask topK hits chosen' used'

/-- The candidate texts returned by one retrieval call: the selection
loop started with empty `chosen` and `used_doc_ids`. -/
def selectDiverse {α : Type} (docs : List Doc) (mask : String → String)
    (topK : Nat) (hits : List (Nat × α)) : List String :=
  selectDiverseGo docs mask topK hits [] []

/-! ## Character classes

Python's Unicode `\s`, `\w`, `\d`, `str.isupper` and `str.strip`
restricted to the Latin/Cyrillic repertoire this repository works in. -/

/-- Python `\s` / `str.strip` whitespace (the Unicode whitespace set). -/
def pySpace (c : Char) : Bool :=
  c = ' ' || c = '\t' || c = '\n' || c = '\x0b' || c = '\x0c' || c = '\r'
    || c.toNat = 0x1c || c.toNat = 0x1d || c.toNat = 0x1e || c.toNat = 0x1f
    || c.toNat = 0x85 || c.toNat = 0xA0 || c.toNat = 0x1680
    || (0x2000 ≤ c.toNat && c.toNat ≤ 0x200A)
    || c.toNat = 0x2028 || c.toNat = 0x2029 || c.toNat = 0x202F
    || c.toNat = 0x205F || c.toNat = 0x3000

/-- Python `\d`. -/
def pyDigit (c : Char) : Bool := '0' ≤ c && c ≤ '9'

/-- Latin or Cyrillic letter: the class `[A-Za-zА-Яа-яЁё]` used by the
cleaner's heading heuristic, and the alphabetic part of Python `\w`. -/
def alphaRu (c : Char) : Bool :=
  ('A' ≤ c && c ≤ 'Z') || ('a' ≤ c && c ≤ 'z')
    || (0x410 ≤ c.toNat && c.toNat ≤ 0x44F)
    || c.toNat = 0x401 || c.toNat = 0x451

/-- Python `\w` (word character) on the Latin/Cyrillic repertoire. -/
def pyWord (c : Char) : Bool := alphaRu c || pyDigit c || c = '_'

/-- Python `str.isupper` for a single Latin/Cyrillic letter, also the
lookahead class `[A-ZА-ЯЁ0-9]` minus the digits. -/
def upperRu (c : Char) : Bool :=
  ('A' ≤ c && c ≤ 'Z') || (0x410 ≤ c.toNat && c.toNat ≤ 0x42F)
    || c.toNat = 0x401

/-! ## Basic string utilities shared by the cleaner and the validators -/

/-- Python `str.strip()`. -/
def pyStrip (cs : List Char) : List Char :=
  ((cs.dropWhile pySpace).reverse.dropWhile pySpace).reverse

/-- Replace every maximal run of `p`-characters by the single character
`rep` (the semantics of `re.sub(r"[..]+", rep, s)` for a one-class
pattern). -/
def collapseRuns (p : Char → Bool) (rep : Char) : List Char → List Char
  | [] => []
  | [c] => if p c then [rep] else [c]
  | c :: c2 :: cs =>
      if p c && p c2 then collapseRuns p rep (c2 :: cs)
      else (if p c then rep else c) :: collapseRuns p rep (c2 :: cs)

/-- `re.sub(r"\n{3,}", "\n\n", s)`: cap runs of newlines at two. -/
def capNewlines : List Char → List Char
  | '\n' :: '\n' :: '\n' :: cs => capNewlines ('\n' :: '\n' :: cs)
  | c :: cs => c :: capNewlines cs
  | [] => []

/-- Python `str.splitlines()`. -/
def splitLinesGo (acc : List Char) : List Char → List (List Char)
  | [] => if acc = [] then [] else [acc.reverse]
  | '\r' :: '\n' :: cs => acc.reverse :: splitLinesGo [] cs
  | c :: cs =>
      if c = '\n' || c = '\r' || c = '\x0b' || c = '\x0c'
          || c.toNat = 0x1c || c.toNat = 0x1d || c.toNat = 0x1e
          || c.toNat = 0x85 || c.toNat = 0x2028 || c.toNat = 0x2029 then
        acc.reverse :: splitLinesGo [] cs
      else splitLinesGo (c :: acc) cs

/-- Python `str.splitlines()` on a character list. -/
def splitLines (cs : List Char) : List (List Char) := splitLinesGo [] cs

/-- Python `sep.join(parts)`. -/
def joinSep (sep : List Char) : List (List Char) → List Char
  | [] => []
  | [x] => x
  | x :: xs => x ++ sep ++ joinSep sep xs

/-- Python `str.casefold()` on the Latin/Cyrillic repertoire
(coincides with `str.lower()` there). -/
def caseFold (cs : List Char) : List Char := cs.map toLowerRu

/-! ## Precedent sanitizer, stage 1 (precedent_cleaner.py 28-103) -/

/-- `_normalize_spaces` (precedent_cleaner.py 28-36): strip non-breaking
spaces, collapse `[ \t]+`, cap blank lines, strip. -/
def normalizeSpacesL (cs : List Char) : List Char :=
  pyStrip (capNewlines (collapseRuns (fun c => c = ' ' || c = '\t') ' '
    (cs.map (fun c => if c.toNat = 0xA0 then ' ' else c))))

/-- `_normalize_spaces` on strings. -/
def normalizeSpaces (s : String) : String := (normalizeSpacesL s.data).asString

/-- `looks_caps_heading` (precedent_cleaner.py 92-97): at least 4
letters, line length at most 90, and more than 88% of the letters
uppercase. -/
def looksCapsHeading (ln : List Char) : Bool :=
  let letters := ln.filter alphaRu
  if letters.length < 4 || 90 < ln.length then false
  else
    let upper := (letters.filter upperRu).length
    decide ((0.88 : ℚ) < (upper : ℚ) / (max 1 letters.length : ℚ))

/-- `_remove_heading_echo` (precedent_cleaner.py 84-103): drop leading
all-caps heading lines, rejoin the rest. -/
def removeHeadingEcho (cs : List Char) : List Char :=
  let lines := ((splitLines cs).map pyStrip).filter (fun ln => ln ≠ [])
  pyStrip (joinSep ['\n'] (lines.dropWhile looksCapsHeading))

/-- The inner loop of `_dedupe_lines_window` (precedent_cleaner.py
55-78): lines are normalized, empty ones dropped, and a line whose
case-folded form appeared among the last `window` kept lines is dropped. -/
def dedupeLinesGo (window : Nat) : List (List Char) → List (List Char) →
    List (List Char)
  | [], _recent => []
  | ln :: rest, recent =>
      let ln' := normalizeSpacesL ln
      if ln' = [] then dedupeLinesGo window rest recent
      else
        let k := caseFold ln'
        if k ∈ recent then dedupeLinesGo window rest recent
        else
          let r := recent ++ [k]
          ln' :: dedupeLinesGo window rest
            (if window < r.length then r.drop 1 else r)

/-- `_dedupe_lines_window` (precedent_cleaner.py 55-78). -/
def dedupeLinesWindow (cs : List Char) (window : Nat) : List Char :=
  pyStrip (joinSep ['\n']
    (dedupeLinesGo window ((splitLines cs).map pyStrip) []))

/-- `_dedupe_keep_order` (precedent_cleaner.py 40-52): drop entries whose
case-folded form is empty or already seen. -/
def dedupeKeepOrderGo : List String → List (List Char) → List String
  | [], _seen => []
  | x :: xs, seen =>
      let k := caseFold x.data
      if k = [] ∨ k ∈ seen then dedupeKeepOrderGo xs seen
      else x :: dedupeKeepOrderGo xs (k :: seen)

/-- `_dedupe_keep_order` on a list of strings. -/
def dedupeKeepOrder (items : List String) : List String :=
  dedupeKeepOrderGo items []

/-! ## Sentence splitting and sentence-safe truncation
(precedent_cleaner.py 11-24, 301-325) -/

/-- Sentence-ending punctuation of `_SENT_SPLIT_RE`: `[.!?]`. -/
def sentEnd (c : Char) : Bool := c = '.' || c = '!' || c = '?'

/-- The split of `_SENT_SPLIT_RE = (?<=[.!?])\s+(?=[A-ZА-ЯЁ0-9])` applied
to a whitespace-collapsed text: cut at a space preceded by sentence
punctuation and followed by an uppercase letter or digit.  `acc` holds
the current part reversed. -/
def splitSentRaw (acc : List Char) : List Char → List (List Char)
  | [] => [acc.reverse]
  | c :: cs =>
      if c = ' ' && (match acc.head? with
            | some p => sentEnd p
            | none => false)
          && (match cs.head? with
            | some n => upperRu n || pyDigit n
            | none => false) then
        acc.reverse :: splitSentRaw [] cs
      else splitSentRaw (c :: acc) cs

/-- `_split_sentences` (precedent_cleaner.py 14-24): strip, collapse all
whitespace to single spaces, split at sentence boundaries, strip the
parts and drop empty ones. -/
def splitSentencesL (cs : List Char) : List (List Char) :=
  let t := pyStrip cs
  if t = [] then []
  else
    let w := pyStrip (collapseRuns pySpace ' ' t)
    ((splitSentRaw [] w).map pyStrip).filter (fun p => p ≠ [])

/-- `p[:max].rsplit(" ", 1)[0]`: cut at the last space when one exists,
otherwise keep the whole list. -/
def cutLastSpace (p : List Char) : List Char :=
  if ' ' ∈ p then
    let k := (p.length - 1) - (p.reverse.indexOf ' ')
    p.take k
  else p

/-- The greedy sentence-accumulation loop of `truncate_sentence_safe`
(precedent_cleaner.py 313-320): keep adding sentences (plus a joining
space after the first) while the running length stays within
`maxChars`. -/
def takeSents (maxChars : Nat) : List (List Char) → Nat → Bool →
    List (List Char)
  | [], _cur, _ne => []
  | s :: ss, cur, ne =>
      let add := s.length + (if ne then 1 else 0)
      if maxChars < cur + add then []
      else s :: takeSents maxChars ss (cur + add) true

/-- The length of `" ".join(out)` accounted sentence by sentence: each
sentence after the first costs one extra joining space.  `ne` records
whether a sentence was already taken (`1 if out else 0` in the code). -/
def joinedCost (ne : Bool) : List (List Char) → Nat
  | [] => 0
  | s :: out => s.length + (if ne then 1 else 0) + joinedCost true out

/-- `truncate_sentence_safe` (precedent_cleaner.py 301-325). -/
def truncateSentenceSafe (s : String) (maxChars : Nat) : String :=
  let t := normalizeSpacesL s.data
  if t.length ≤ maxChars then t.asString
  else
    let sents := splitSentencesL t
    if sents = [] then (pyStrip (cutLastSpace (t.take maxChars))).asString
    else
      let out := takeSents maxChars sents 0 false
      if out = [] then
        (pyStrip (cutLastSpace ((sents.headD []).take maxChars))).asString
      else (pyStrip (joinSep [' '] out)).asString

/-! ## Anchored pattern matchers

Each `re` pattern of the sources is embedded as a hand-translated
anchored matcher on `List Char`: given the previous input character
(for `\b` and look-behinds) and the input suffix, it returns the
replacement and the remaining suffix on a match.  `subn` drives a
matcher over the whole input exactly like `re.subn`: leftmost
non-overlapping matches, scanning the original input. -/

/-- Case-insensitive literal match (Python `re.IGNORECASE` over the
Latin/Cyrillic repertoire); returns the rest. -/
def litCI : List Char → List Char → Option (List Char)
  | [], cs => some cs
  | _, [] => none
  | w :: ws, c :: cs =>
      if toLowerRu c = toLowerRu w then litCI ws cs else none

/-- Whether an optional character is a Python word character. -/
def isWordOpt : Option Char → Bool
  | none => false
  | some c => pyWord c

/-- `\b` after a word character: the next character is absent or not a
word character. -/
def nextNonWord (cs : List Char) : Bool := !(isWordOpt cs.head?)

/-- `\s+`: at least one whitespace character, consumed greedily. -/
def many1Space : List Char → Option (List Char)
  | [] => none
  | c :: cs => if pySpace c then some (cs.dropWhile pySpace) else none

/-- Length of the leading digit run (`\d{..}` material). -/
def digitsRun (cs : List Char) : Nat := (cs.takeWhile pyDigit).length

/-- Try the alternatives in order; for each that matches, run the
continuation, backtracking to the next alternative on failure (Python
alternation semantics). -/
def altCI {α : Type} (cont : List Char → Option α) :
    List (List Char) → List Char → Option α
  | [], _ => none
  | w :: ws, cs =>
      match litCI w cs with
      | some rest =>
          match cont rest with
          | some r => some r
          | none => altCI cont ws cs
      | none => altCI cont ws cs

/-- Case-insensitive literal followed by `\b`. -/
def litCIB (w : String) (cs : List Char) : Option (List Char) :=
  match litCI w.data cs with
  | some r => if nextNonWord r then some r else none
  | none => none

/-- `a\s+b` (no trailing boundary). -/
def twoWord (a b : String) (cs : List Char) : Option (List Char) :=
  match litCI a.data cs with
  | some r =>
      match many1Space r with
      | some r2 => litCI b.data r2
      | none => none
  | none => none

/-- `a\s+b\b`. -/
def twoWordB (a b : String) (cs : List Char) : Option (List Char) :=
  match twoWord a b cs with
  | some r => if nextNonWord r then some r else none
  | none => none

/-- `stem(?:s1|s2|...)?\b`: greedy optional suffix, backtracking against
the trailing boundary. -/
def stemOptSuffixB (stem : String) (sufs : List String) (cs : List Char) :
    Option (List Char) :=
  match litCI stem.data cs with
  | none => none
  | some r =>
      match altCI (fun r2 => if nextNonWord r2 then some r2 else none)
          (sufs.map String.data) r with
      | some r2 => some r2
      | none => if nextNonWord r then some r else none

/-- `stem(?:s1|s2|...)\b`: mandatory suffix alternation with trailing
boundary. -/
def stemSuffixB (stem : String) (sufs : List String) (cs : List Char) :
    Option (List Char) :=
  match litCI stem.data cs with
  | none => none
  | some r =>
      altCI (fun r2 => if nextNonWord r2 then some r2 else none)
        (sufs.map String.data) r

/-- One step of `re.subn` scanning with explicit fuel: try the matcher at
the current position (passing the previous original-input character),
else copy one character and advance. -/
def subnGo (m : Option Char → List Char → Option (List Char × List Char)) :
    Nat → Option Char → List Char → List Char × Nat
  | 0, _, cs => (cs, 0)
  | fuel + 1, prev, cs =>
      match m prev cs with
      | some (rep, rest) =>
          let consumed := cs.take (cs.length - rest.length)
          let prev' := match consumed.getLast? with
            | some c => some c
            | none => prev
          let r := subnGo m fuel prev' rest
          (rep ++ r.1, r.2 + 1)
      | none =>
          match cs with
          | [] => ([], 0)
          | c :: cs' =>
              let r := subnGo m fuel (some c) cs'
              (c :: r.1, r.2)

/-- `re.subn(pattern, repl, s)`: replaced text and substitution count. -/
def subn (m : Option Char → List Char → Option (List Char × List Char))
    (cs : List Char) : List Char × Nat :=
  subnGo m (cs.length + 1) none cs

/-! ## Anonymization patterns (precedent_cleaner.py 105-295)

One matcher per compiled pattern, in source order. -/

/-- The spelled-out number words shared by `_PARENS_NUMBER_WORD_RE` and
`_DAYS_WORD_RE` (precedent_cleaner.py 152-176), in source order. -/
def ruNumberWords : List String :=
  ["одного", "один", "двух", "два", "трех", "трёх", "три",
   "четырех", "четырёх", "четыре", "пяти", "пять", "шести", "шесть",
   "семи", "семь", "восьми", "восемь", "девяти", "девять",
   "десяти", "десять", "тридцати", "тридцать", "сорока", "сорок"]

/-- `_PARENS_NUMBER_WORD_RE` (167-176): `\s*\(\s*word\s*\)\s*` → `" "`. -/
def mParensNumberWord (_prev : Option Char) (cs : List Char) :
    Option (List Char × List Char) :=
  match cs.dropWhile pySpace with
  | '(' :: s1 =>
      (altCI (fun s3 =>
          match s3.dropWhile pySpace with
          | ')' :: s5 => some (s5.dropWhile pySpace)
          | _ => none)
        (ruNumberWords.map String.data) (s1.dropWhile pySpace)).map
        (fun rest => (" ".data, rest))
  | _ => none

/-- `_VAT_RATE_RE` (137-140):
`(?:(?:ндс|vat)\s*(?:в\s*размере\s*)?)\s*(\d{1,2}(?:[.,]\d{1,2})?)\s*%`
→ `"[VAT_RATE]"`. -/
def mVatRate (_prev : Option Char) (cs : List Char) :
    Option (List Char × List Char) :=
  match (litCI "ндс".data cs).orElse (fun _ => litCI "vat".data cs) with
  | none => none
  | some s1 =>
      let s2 := s1.dropWhile pySpace
      let s3 := match litCI "в".data s2 with
        | some r =>
            match litCI "размере".data (r.dropWhile pySpace) with
            | some r3 => r3.dropWhile pySpace
            | none => s2
        | none => s2
      let s4 := s3.dropWhile pySpace
      let m := digitsRun s4
      if 1 ≤ m ∧ m ≤ 2 then
        let s5 := s4.drop m
        let s6 := match s5 with
          | c :: rest =>
              if (c = '.' ∨ c = ',') ∧ 1 ≤ digitsRun rest ∧ digitsRun rest ≤ 2
              then rest.drop (digitsRun rest) else s5
          | [] => s5
        match s6.dropWhile pySpace with
        | '%' :: s8 => some ("[VAT_RATE]".data, s8)
        | _ => none
      else none

/-- `_VAT_RE` (134): `\b(vat)\b|ндс` → `"[VAT]"`. -/
def mVat (prev : Option Char) (cs : List Char) :
    Option (List Char × List Char) :=
  let vat : Option (List Char) :=
    if isWordOpt prev then none
    else match litCI "vat".data cs with
      | some r => if nextNonWord r then some r else none
      | none => none
  ((vat.orElse (fun _ => litCI "ндс".data cs))).map
    (fun rest => ("[VAT]".data, rest))

/-- The ISO-like currency codes of `_CURRENCY_RE` (106-109). -/
def currencyCodes : List String :=
  ["USD", "EUR", "RUB", "GBP", "CNY", "CHF", "AED", "KZT", "UAH",
   "PLN", "TRY", "JPY"]

/-- `_CURRENCY_RE` (106-109): `\b(USD|...)\b` → `"[CURRENCY]"`. -/
def mCurrencyCode (prev : Option Char) (cs : List Char) :
    Option (List Char × List Char) :=
  if isWordOpt prev then none
  else
    (altCI (fun r => if nextNonWord r then some r else none)
      (currencyCodes.map String.data) cs).map
      (fun rest => ("[CURRENCY]".data, rest))

/-- The `фунт(?:а|ов)?\s+стерлинг(?:ов)?` alternative of
`_CURRENCY_WORD_RE`. -/
def mFuntSterling (cs : List Char) : Option (List Char) :=
  match litCI "фунт".data cs with
  | none => none
  | some r =>
      let cont := fun (r2 : List Char) =>
        match many1Space r2 with
        | none => none
        | some r3 =>
            match litCI "стерлинг".data r3 with
            | none => none
            | some r4 =>
                match litCI "ов".data r4 with
                | some r5 =>
                    if nextNonWord r5 then some r5
                    else if nextNonWord r4 then some r4 else none
                | none => if nextNonWord r4 then some r4 else none
      match litCI "а".data r with
      | some r2 =>
          match cont r2 with
          | some x => some x
          | none =>
              match litCI "ов".data r with
              | some r2' =>
                  match cont r2' with
                  | some x => some x
                  | none => cont r
              | none => cont r
      | none =>
          match litCI "ов".data r with
          | some r2' =>
              match cont r2' with
              | some x => some x
              | none => cont r
          | none => cont r

/-- `_CURRENCY_WORD_RE` (112-124): spelled-out currency names →
`"[CURRENCY]"`, alternatives in source order. -/
def mCurrencyWord (prev : Option Char) (cs : List Char) :
    Option (List Char × List Char) :=
  if isWordOpt prev then none
  else
    ((stemOptSuffixB "доллар" ["а", "ов"] cs).orElse fun _ =>
    (litCIB "usd" cs).orElse fun _ =>
    (litCIB "евро" cs).orElse fun _ =>
    (litCIB "eur" cs).orElse fun _ =>
    (stemSuffixB "руб" ["ль", "ля", "лей"] cs).orElse fun _ =>
    (litCIB "rub" cs).orElse fun _ =>
    (mFuntSterling cs).orElse fun _ =>
    (litCIB "gbp" cs).orElse fun _ =>
    (stemSuffixB "злот" ["ый", "ых", "ого", "ым", "ыми"] cs).orElse fun _ =>
    (litCIB "pln" cs).orElse fun _ =>
    (stemSuffixB "юан" ["ь", "я", "ей"] cs).orElse fun _ =>
    (litCIB "cny" cs).orElse fun _ =>
    (litCIB "тенге" cs).orElse fun _ =>
    (litCIB "kzt" cs).orElse fun _ =>
    (stemOptSuffixB "дирхам" ["а", "ов"] cs).orElse fun _ =>
    litCIB "aed" cs).map (fun rest => ("[CURRENCY]".data, rest))

/-- `_CURRENCY_ADJ_BEFORE_PLACEHOLDER_RE` (128-131):
`\bпольск\w*\s+\[CURRENCY\](?=[\s,.;:)\]]|$)` → `"[CURRENCY]"`. -/
def mCurrencyAdj (prev : Option Char) (cs : List Char) :
    Option (List Char × List Char) :=
  if isWordOpt prev then none
  else
    match litCI "польск".data cs with
    | none => none
    | some r =>
        match many1Space (r.dropWhile pyWord) with
        | none => none
        | some r3 =>
            match litCI "[CURRENCY]".data r3 with
            | none => none
            | some r4 =>
                let ok := match r4.head? with
                  | none => true
                  | some c => pySpace c || c = ',' || c = '.' || c = ';'
                      || c = ':' || c = ')' || c = ']'
                if ok then some ("[CURRENCY]".data, r4) else none

/-- `_PERCENT_RE` (143): `(?<!\w)(\d{1,2}(?:[.,]\d{1,2})?)\s*%` →
`"[PERCENT]"`. -/
def mPercent (prev : Option Char) (cs : List Char) :
    Option (List Char × List Char) :=
  if isWordOpt prev then none
  else
    let m := digitsRun cs
    if 1 ≤ m ∧ m ≤ 2 then
      let s1 := cs.drop m
      let s2 := match s1 with
        | c :: rest =>
            if (c = '.' ∨ c = ',') ∧ 1 ≤ digitsRun rest ∧ digitsRun rest ≤ 2
            then rest.drop (digitsRun rest) else s1
        | [] => s1
      match s2.dropWhile pySpace with
      | '%' :: s4 => some ("[PERCENT]".data, s4)
      | _ => none
    else none

/-- The day-unit alternation of `_DAYS_RE` (145-149), with its trailing
`\b`, alternatives in source order (a trailing `.` is kept only when a
word character follows, per `\b` after a non-word character). -/
def mDayUnit (cs : List Char) : Option (List Char) :=
  let dotOptB := fun (stem : String) (x : List Char) =>
    match litCI stem.data x with
    | none => none
    | some r =>
        match r with
        | '.' :: r2 =>
            if isWordOpt r2.head? then some r2
            else if nextNonWord r then some r else none
        | _ => if nextNonWord r then some r else none
  (litCIB "day" cs).orElse fun _ =>
  (litCIB "days" cs).orElse fun _ =>
  (twoWordB "banking" "days" cs).orElse fun _ =>
  (twoWordB "business" "days" cs).orElse fun _ =>
  (dotOptB "дн" cs).orElse fun _ =>
  (litCIB "дней" cs).orElse fun _ =>
  (litCIB "дня" cs).orElse fun _ =>
  (dotOptB "сут" cs).orElse fun _ =>
  (twoWordB "банковских" "дней" cs).orElse fun _ =>
  twoWordB "рабочих" "дней" cs

/-- `_DAYS_RE` (145-149): `\b(\d{1,3})\s*(день-unit)\b` →
`"[TERM_DAYS]"`. -/
def mDaysDigits (prev : Option Char) (cs : List Char) :
    Option (List Char × List Char) :=
  if isWordOpt prev then none
  else
    let m := digitsRun cs
    if 1 ≤ m ∧ m ≤ 3 then
      (mDayUnit ((cs.drop m).dropWhile pySpace)).map
        (fun rest => ("[TERM_DAYS]".data, rest))
    else none

/-- `_DAYS_WORD_RE` (152-160):
`\b(number-word)\b\s*(?:банковских\s+дней|рабочих\s+дней|дней|суток)?\b`
→ `"[TERM_DAYS]"`.  When the optional unit is absent the final `\b`
forces either consuming the whitespace (word character next) or
stopping right after the number word. -/
def mDaysWords (prev : Option Char) (cs : List Char) :
    Option (List Char × List Char) :=
  if isWordOpt prev then none
  else
    (altCI (fun r =>
        if nextNonWord r then
          let sp := r.takeWhile pySpace
          let r2 := r.dropWhile pySpace
          match (twoWordB "банковских" "дней" r2).orElse fun _ =>
              (twoWordB "рабочих" "дней" r2).orElse fun _ =>
              (litCIB "дней" r2).orElse fun _ =>
              litCIB "суток" r2 with
          | some r3 => some r3
          | none =>
              if sp ≠ [] ∧ isWordOpt r2.head? then some r2
              else some r
        else none)
      (ruNumberWords.map String.data) cs).map
      (fun rest => ("[TERM_DAYS]".data, rest))

/-- Separator class `[ ,. ]` of `_AMOUNT_RE`'s grouped alternative. -/
def amountSep (c : Char) : Bool :=
  c = ' ' || c = ',' || c = '.' || c.toNat = 0xA0

/-- The optional `(?:[.,]\d{1,2})?` decimal tail followed by `(?!\w)`:
returns the rest on success. -/
def decimalTail (cs : List Char) : Option (List Char) :=
  match cs with
  | [] => some []
  | c :: rest =>
      if (c = '.' ∨ c = ',') ∧ 1 ≤ digitsRun rest ∧ digitsRun rest ≤ 2
          ∧ !(isWordOpt (rest.drop (digitsRun rest)).head?) then
        some (rest.drop (digitsRun rest))
      else if !(pyWord c) then some (c :: rest)
      else none

/-- Ends (rests) after each successful `[ ,. ]\d{3}` repetition of
`_AMOUNT_RE`'s grouped alternative, in order; a repetition is taken only
when exactly three digits follow the separator. -/
def amountRepEnds : Nat → List Char → List (List Char)
  | 0, _ => []
  | fuel + 1, cs =>
      match cs with
      | c :: rest =>
          if amountSep c ∧ digitsRun rest = 3 then
            let nxt := rest.drop 3
            nxt :: amountRepEnds fuel nxt
          else []
      | [] => []

/-- Backtracking over the repetition ends, longest first. -/
def tryDecimalEnds : List (List Char) → Option (List Char)
  | [] => none
  | e :: es =>
      match decimalTail e with
      | some r => some r
      | none => tryDecimalEnds es

/-- `_AMOUNT_RE` (163-165):
`(?<!\w)(?:\d{1,3}(?:[ ,. ]\d{3})+(?:[.,]\d{1,2})?|\d{4,}(?:[.,]\d{1,2})?)(?!\w)`
→ `"[AMOUNT]"`. -/
def mAmount (prev : Option Char) (cs : List Char) :
    Option (List Char × List Char) :=
  if isWordOpt prev then none
  else
    let m := digitsRun cs
    if m = 0 then none
    else if m ≤ 3 then
      (tryDecimalEnds (amountRepEnds cs.length (cs.drop m)).reverse).map
        (fun rest => ("[AMOUNT]".data, rest))
    else
      (decimalTail (cs.drop m)).map (fun rest => ("[AMOUNT]".data, rest))

/-- Try an optional single character of class `p`, backtracking to the
no-character branch (greedy `[..]?`). -/
def optClassThen {α : Type} (p : Char → Bool) (cont : List Char → Option α)
    (cs : List Char) : Option α :=
  match cs with
  | c :: rest =>
      if p c then (cont rest).orElse (fun _ => cont cs) else cont cs
  | [] => cont cs

/-- `_AMOUNT_USED_AS_CLAUSE_RE` (179-182):
`\b(пункт[аеуы]?|п\.|раздел[аеуы]?|стать[еяи])\s+\[AMOUNT\]\b` →
`"\1 [CLAUSE_REF]"`.  The trailing `\b` sits after `]`, a non-word
character, so it requires a word character next. -/
def mAmountClause (prev : Option Char) (cs : List Char) :
    Option (List Char × List Char) :=
  if isWordOpt prev then none
  else
    let clsAEUY := fun (c : Char) => toLowerRu c = 'а' ∨ toLowerRu c = 'е'
      ∨ toLowerRu c = 'у' ∨ toLowerRu c = 'ы'
    let clsEYaI := fun (c : Char) => toLowerRu c = 'е' ∨ toLowerRu c = 'я'
      ∨ toLowerRu c = 'и'
    let cont := fun (ag : List Char) =>
      match many1Space ag with
      | none => none
      | some r2 =>
          match litCI "[AMOUNT]".data r2 with
          | none => none
          | some r3 =>
              if isWordOpt r3.head? then some (ag, r3) else none
    let group :=
      (match litCI "пункт".data cs with
        | some r => optClassThen clsAEUY cont r
        | none => none).orElse fun _ =>
      (match litCI "п.".data cs with
        | some r => cont r
        | none => none).orElse fun _ =>
      (match litCI "раздел".data cs with
        | some r => optClassThen clsAEUY cont r
        | none => none).orElse fun _ =>
      (match litCI "стать".data cs with
        | some r =>
            match r with
            | c :: r2 => if clsEYaI c then cont r2 else none
            | [] => none
        | none => none)
    match group with
    | none => none
    | some (ag, rest) =>
        some (cs.take (cs.length - ag.length) ++ " [CLAUSE_REF]".data, rest)

/-- `_AMOUNT_USED_AS_DAYS_BANKING_RE` (185-188):
`\[AMOUNT\](\s+(?:банковских\s+дней|рабочих\s+дней|business\s+days|banking\s+days))`
→ `"[TERM_DAYS]\1"`. -/
def mAmountDaysBanking (_prev : Option Char) (cs : List Char) :
    Option (List Char × List Char) :=
  match litCI "[AMOUNT]".data cs with
  | none => none
  | some r =>
      match many1Space r with
      | none => none
      | some r2 =>
          match (twoWord "банковских" "дней" r2).orElse fun _ =>
              (twoWord "рабочих" "дней" r2).orElse fun _ =>
              (twoWord "business" "days" r2).orElse fun _ =>
              twoWord "banking" "days" r2 with
          | none => none
          | some r3 =>
              some ("[TERM_DAYS]".data ++ r.take (r.length - r3.length), r3)

/-- `_AMOUNT_USED_AS_DAYS_GENERIC_RE` (191-194):
`[«"']?\[AMOUNT\][»"']?(\s+(?:календарн(?:ых|ые)\s+)?(?:дней|дня|суток))`
→ `"[TERM_DAYS]\1"`. -/
def mAmountDaysGeneric (_prev : Option Char) (cs : List Char) :
    Option (List Char × List Char) :=
  let s1 := match cs with
    | c :: rest => if c = '«' ∨ c = '"' ∨ c = '\'' then rest else cs
    | [] => cs
  match litCI "[AMOUNT]".data s1 with
  | none => none
  | some r =>
      let r1 := match r with
        | c :: rest => if c = '»' ∨ c = '"' ∨ c = '\'' then rest else r
        | [] => r
      match many1Space r1 with
      | none => none
      | some r2 =>
          let tryUnit := fun (x : List Char) =>
            (litCI "дней".data x).orElse fun _ =>
            (litCI "дня".data x).orElse fun _ =>
            litCI "суток".data x
          let withCal : Option (List Char) :=
            match litCI "календарн".data r2 with
            | some q =>
                match (litCI "ых".data q).orElse
                    (fun _ => litCI "ые".data q) with
                | some q2 =>
                    match many1Space q2 with
                    | some q3 => tryUnit q3
                    | none => none
                | none => none
            | none => none
          match withCal.orElse (fun _ => tryUnit r2) with
          | none => none
          | some r4 =>
              some ("[TERM_DAYS]".data ++ r1.take (r1.length - r4.length), r4)

/-- The greedy `(?:\.\d+)*` tail of a clause number. -/
def dottedNums : Nat → List Char → List Char
  | 0, cs => cs
  | fuel + 1, cs =>
      match cs with
      | '.' :: rest =>
          if 1 ≤ digitsRun rest then
            dottedNums fuel (rest.drop (digitsRun rest))
          else cs
      | _ => cs

/-- `_CLAUSE_REF_PHRASE_RE` (197-204): removes whole cross-reference
phrases `(?:,?\s*)?(?:указанн\w*|предусмотренн\w*)\s+(?:в\s+)?(пункте|п\.|разделе|статье)\s+(?:\[[A-Z_]+\]|\d+(?:\.\d+)*)\s+(?:настоящего|данного)\s+контракт\w*`. -/
def mClauseRefPhrase (_prev : Option Char) (cs : List Char) :
    Option (List Char × List Char) :=
  let s1 := match cs with
    | ',' :: rest => rest.dropWhile pySpace
    | _ => cs.dropWhile pySpace
  match (litCI "указанн".data s1).orElse
      (fun _ => litCI "предусмотренн".data s1) with
  | none => none
  | some r =>
      match many1Space (r.dropWhile pyWord) with
      | none => none
      | some r2 =>
          let r3 := match litCI "в".data r2 with
            | some q =>
                match many1Space q with
                | some q2 => q2
                | none => r2
            | none => r2
          match (litCI "пункте".data r3).orElse fun _ =>
              (litCI "п.".data r3).orElse fun _ =>
              (litCI "разделе".data r3).orElse fun _ =>
              litCI "статье".data r3 with
          | none => none
          | some r4 =>
              match many1Space r4 with
              | none => none
              | some r5 =>
                  let numOrPh : Option (List Char) :=
                    match r5 with
                    | '[' :: q =>
                        let body := q.takeWhile (fun c =>
                          ('A' ≤ c && c ≤ 'Z') || ('a' ≤ c && c ≤ 'z')
                            || c = '_')
                        if body ≠ [] then
                          match q.drop body.length with
                          | ']' :: q2 => some q2
                          | _ => none
                        else none
                    | _ =>
                        if 1 ≤ digitsRun r5 then
                          some (dottedNums r5.length
                            (r5.drop (digitsRun r5)))
                        else none
                  match numOrPh with
                  | none => none
                  | some r6 =>
                      match many1Space r6 with
                      | none => none
                      | some r7 =>
                          match (litCI "настоящего".data r7).orElse
                              (fun _ => litCI "данного".data r7) with
                          | none => none
                          | some r8 =>
                              match many1Space r8 with
                              | none => none
                              | some r9 =>
                                  match litCI "контракт".data r9 with
                                  | none => none
                                  | some r10 =>
                                      some ([], r10.dropWhile pyWord)

/-- `anonymize_payment_terms` (precedent_cleaner.py 207-295): the
ordered substitution pipeline and the total substitution count, ending
with `_normalize_spaces`. -/
def anonymizePaymentTermsL (cs : List Char) : List Char × Nat :=
  let r0 := subn mParensNumberWord cs
  let r1 := subn mVatRate r0.1
  let r2 := subn mVat r1.1
  let r3 := subn mCurrencyCode r2.1
  let r4 := subn mCurrencyWord r3.1
  let r5 := subn mCurrencyAdj r4.1
  let r6 := subn mPercent r5.1
  let r7 := subn mDaysDigits r6.1
  let r8 := subn mDaysWords r7.1
  let r9 := subn mAmount r8.1
  let r10 := subn mAmountClause r9.1
  let r11 := subn mAmountDaysBanking r10.1
  let r12 := subn mAmountDaysGeneric r11.1
  let r13 := subn mClauseRefPhrase r12.1
  (normalizeSpacesL r13.1,
    r0.2 + r1.2 + r2.2 + r3.2 + r4.2 + r5.2 + r6.2 + r7.2 + r8.2 + r9.2
      + r10.2 + r11.2 + r12.2 + r13.2)

/-- `anonymize_payment_terms` on strings: cleaned text and number of
substitutions. -/
def anonymizePaymentTerms (s : String) : String × Nat :=
  let r := anonymizePaymentTermsL s.data
  (r.1.asString, r.2)

/-! ## The cleaning pipeline (precedent_cleaner.py 331-390) -/

/-- `CleanReport` (precedent_cleaner.py 331-338). -/
structure CleanReport where
  input_count : Nat
  output_count : Nat
  dropped_empty : Nat
  dropped_duplicates : Nat
  total_replacements : Nat

/-- Stage 1 of `clean_precedents_payment_terms` (lines 355-365):
whitespace normalization, heading-echo removal, windowed line
deduplication, strip. -/
def cleanStage1 (p : String) : List Char :=
  pyStrip (dedupeLinesWindow (removeHeadingEcho (normalizeSpacesL p.data)) 30)

/-- `clean_precedents_payment_terms` (precedent_cleaner.py 341-390);
`clean_precedents_delivery_terms` (392-394) delegates to it. -/
def cleanPrecedentsPaymentTerms (precedents : List String)
    (minChars maxChars : Nat) : List String × CleanReport :=
  let stage1 := precedents.map cleanStage1
  let normalized := stage1.filter (fun t => !decide (t.length < minChars))
  let droppedEmpty := (stage1.filter (fun t => decide (t.length < minChars))).length
  let anonymized := normalized.map anonymizePaymentTermsL
  let totalReps := (anonymized.map Prod.snd).sum
  let truncated := anonymized.map
    (fun r => truncateSentenceSafe r.1.asString maxChars)
  let unique := dedupeKeepOrder (truncated.filter (fun t => pyStrip t.data ≠ []))
  (unique,
    ⟨precedents.length, unique.length, droppedEmpty,
      truncated.length - unique.length, totalReps⟩)

/-! ## The payment-terms validator (local_llm.py 28-82, 190-306)

All helpers of the validator: `_len_no_spaces`, the numbered-list-item
pattern, the placeholder pattern, the repetition detector with its two
unit-splitting modes and `_norm_sentence`, and the boilerplate /
out-of-scope / penalty / bank-details / payment-date checks. -/

/-- Exact (case-sensitive) literal match; the boilerplate and
out-of-scope patterns are all-lowercase and are applied to the lowered
text. -/
def litL : List Char → List Char → Option (List Char)
  | [], cs => some cs
  | _, [] => none
  | w :: ws, c :: cs => if c = w then litL ws cs else none

/-- One character drawn from a class. -/
def oneOf (chars : List Char) : List Char → Option (List Char)
  | c :: rest => if c ∈ chars then some rest else none
  | [] => none

/-- `\s+w` continuation. -/
def seqWord (w : String) (o : Option (List Char)) : Option (List Char) :=
  (o.bind many1Space).bind (litL w.data)

/-- `\w*` continuation. -/
def skipW (o : Option (List Char)) : Option (List Char) :=
  o.map (List.dropWhile pyWord)

/-- Search for an anchored position-matcher at every position. -/
def anySuffix (p : List Char → Bool) : List Char → Bool
  | [] => p []
  | c :: cs => p (c :: cs) || anySuffix p cs

/-- Search with the previous character threaded (for `\b` and `(?m)^`). -/
def anySuffixPrev (p : Option Char → List Char → Bool) :
    Option Char → List Char → Bool
  | prev, [] => p prev []
  | prev, c :: cs => p prev (c :: cs) || anySuffixPrev p (some c) cs

/-- Python `needle in hay` substring test. -/
def hasSub (needle : String) (hay : List Char) : Bool :=
  anySuffix (fun s => (litL needle.data s).isSome) hay

/-- `.*\bstem\w*\b` after a match: search `stem` at a later position of
the same line (`.` does not cross a newline), `\b` tracked through the
wordness of the preceding character. -/
def gapSearchB (stem : String) : Bool → List Char → Bool
  | prevWord, cs =>
      ((!prevWord) && (litL stem.data cs).isSome)
        || match cs with
           | [] => false
           | c :: cs' => c ≠ '\n' && gapSearchB stem (pyWord c) cs'

/-- `_len_no_spaces` (local_llm.py 46-47): length after removing all
whitespace. -/
def lenNoSpaces (cs : List Char) : Nat :=
  (cs.filter (fun c => !(pySpace c))).length

/-- `_LIST_ITEM_RE = (?m)^\s*\d{1,3}\)\s+` (local_llm.py 34), anchored
at a line start (previous character absent or a newline). -/
def listItemAt (prev : Option Char) (cs : List Char) : Option (List Char) :=
  if prev = none ∨ prev = some '\n' then
    let s1 := cs.dropWhile pySpace
    let m := digitsRun s1
    if 1 ≤ m ∧ m ≤ 3 then
      match s1.drop m with
      | ')' :: s2 => many1Space s2
      | _ => none
    else none
  else none

/-- `re.findall` match counting: leftmost non-overlapping scan. -/
def countMatchesGo (m : Option Char → List Char → Option (List Char)) :
    Nat → Option Char → List Char → Nat
  | 0, _, _ => 0
  | fuel + 1, prev, cs =>
      match m prev cs with
      | some rest =>
          let consumed := cs.take (cs.length - rest.length)
          let prev' := match consumed.getLast? with
            | some c => some c
            | none => prev
          1 + countMatchesGo m fuel prev' rest
      | none =>
          match cs with
          | [] => 0
          | c :: cs' => countMatchesGo m fuel (some c) cs'

/-- `len(re.findall(_LIST_ITEM_RE, text))` (local_llm.py 206). -/
def countListItems (cs : List Char) : Nat :=
  countMatchesGo listItemAt (cs.length + 1) none cs

/-- `_PLACEHOLDER_RE = \[[A-Z_]+\]` (local_llm.py 28) at one position. -/
def placeholderAt (cs : List Char) : Bool :=
  match cs with
  | '[' :: q =>
      let body := q.takeWhile (fun c => ('A' ≤ c && c ≤ 'Z') || c = '_')
      body ≠ [] ∧ (q.drop body.length).head? = some ']'
  | _ => false

/-- `_PLACEHOLDER_RE.search(text)` (local_llm.py 211). -/
def placeholderFound (cs : List Char) : Bool := anySuffix placeholderAt cs

/-- `_LIST_ITEM_RE.search(t)` (local_llm.py 58). -/
def hasListItem (cs : List Char) : Bool :=
  anySuffixPrev (fun prev s => (listItemAt prev s).isSome) none cs

/-- The separator of `re.split(r"(?m)^\s*(?=\d{1,3}\)\s+)", t)`
(local_llm.py 60): at a line start, consume `\s*` provided the
look-ahead `\d{1,3}\)\s` holds (possibly a zero-width match). -/
def listSplitSepAt (prev : Option Char) (cs : List Char) :
    Option (List Char) :=
  if prev = none ∨ prev = some '\n' then
    let s1 := cs.dropWhile pySpace
    let m := digitsRun s1
    if 1 ≤ m ∧ m ≤ 3 then
      match s1.drop m with
      | ')' :: s2 =>
          if (match s2.head? with
              | some c => pySpace c
              | none => false) then some s1 else none
      | _ => none
    else none
  else none

/-- The separator of `_SENT_SPLIT_RE = (?<=[.!?])\s+` (local_llm.py 30). -/
def sentSplitSepAt (prev : Option Char) (cs : List Char) :
    Option (List Char) :=
  match prev with
  | some p => if sentEnd p then many1Space cs else none
  | none => none

/-- `re.split` driver: emit a part at every separator match; a
zero-width separator splits and carries the next character into the new
part (Python ≥3.7 empty-match splitting). -/
def splitSepGo (m : Option Char → List Char → Option (List Char)) :
    Nat → Option Char → List Char → List Char → List (List Char)
  | 0, _, acc, cs => [acc.reverse ++ cs]
  | fuel + 1, prev, acc, cs =>
      match m prev cs with
      | some rest =>
          if rest.length < cs.length then
            let consumed := cs.take (cs.length - rest.length)
            let prev' := match consumed.getLast? with
              | some c => some c
              | none => prev
            acc.reverse :: splitSepGo m fuel prev' [] rest
          else
            match cs with
            | [] => [acc.reverse]
            | c :: cs' => acc.reverse :: splitSepGo m fuel (some c) [c] cs'
      | none =>
          match cs with
          | [] => [acc.reverse]
          | c :: cs' => splitSepGo m fuel (some c) (c :: acc) cs'

/-- `_split_units_for_repetition` (local_llm.py 50-65): list items when
the list pattern occurs, else sentences; parts stripped, empties
dropped. -/
def splitUnitsForRepetition (cs : List Char) : List (List Char) :=
  let t := pyStrip cs
  if t = [] then []
  else if hasListItem t then
    ((splitSepGo listSplitSepAt (t.length + 1) none [] t).map pyStrip).filter
      (fun p => p ≠ [])
  else
    ((splitSepGo sentSplitSepAt (t.length + 1) none [] t).map pyStrip).filter
      (fun p => p ≠ [])

/-- `_norm_sentence` (local_llm.py 37-43): strip, lower, `ё`→`е`,
collapse whitespace, drop quote/bracket characters, collapse `[,:;]+`
to a comma. -/
def normSentence (u : List Char) : List Char :=
  let s1 := (pyStrip u).map toLowerRu
  let s2 := s1.map (fun c => if c = 'ё' then 'е' else c)
  let s3 := collapseRuns pySpace ' ' s2
  let s4 := s3.filter (fun c =>
    !(c = '«' ∨ c = '»' ∨ c = '"' ∨ c = '(' ∨ c = ')'))
  collapseRuns (fun c => c = ',' || c = ':' || c = ';') ',' s4

/-- `detect_repetition` (local_llm.py 68-82) with
`min_unit_len = 40`. -/
def detectRepetition (cs : List Char) : Bool :=
  let units := splitUnitsForRepetition cs
  if units.length < 6 then false
  else
    let norm := (units.filter
      (fun u => 40 ≤ (pyStrip u).length)).map normSentence
    if norm.length < 6 then false
    else norm.any (fun x => 2 ≤ norm.count x)

/-- `has_buyer/has_customer/...` checks of the validator
(local_llm.py 217-223). -/
def mixedPartyTerms (low : List Char) : Bool :=
  (hasSub "покупател" low && hasSub "заказчик" low)
    || (hasSub "поставщик" low && hasSub "исполнител" low)
    || (hasSub "покупател" low && hasSub "продавец" low)

/-- `\bв\s+соответствии\s+с\s+действующ\w*\s+законодательств\w*\b`
(local_llm.py 231). -/
def bp1At (prev : Option Char) (s : List Char) : Bool :=
  !(isWordOpt prev) &&
    (litL "в".data s |> seqWord "соответствии" |> seqWord "с"
      |> seqWord "действующ" |> skipW |> seqWord "законодательств").isSome

/-- `\bсторон[аы]\s+обяз(уется|уются)\b.*\bсоблюдат\w*\b`
(local_llm.py 232). -/
def bp2At (prev : Option Char) (s : List Char) : Bool :=
  !(isWordOpt prev) &&
    (match ((litL "сторон".data s).bind (oneOf ['а', 'ы'])
        |> seqWord "обяз") with
     | none => false
     | some r =>
        match (litL "уется".data r).orElse (fun _ => litL "уются".data r) with
        | none => false
        | some r2 => nextNonWord r2 && gapSearchB "соблюдат" true r2)

/-- `\bвправе\s+требоват\w*\b` (local_llm.py 233). -/
def bp3At (prev : Option Char) (s : List Char) : Bool :=
  !(isWordOpt prev) &&
    (litL "вправе".data s |> seqWord "требоват").isSome

/-- `\bвозможн(ые|ых)\s+последств(ия|ий)\b` (local_llm.py 234). -/
def bp4At (prev : Option Char) (s : List Char) : Bool :=
  !(isWordOpt prev) &&
    (match ((litL "возможн".data s).bind (fun r =>
        (litL "ые".data r).orElse (fun _ => litL "ых".data r))
        |> seqWord "последств") with
     | none => false
     | some r =>
        match (litL "ия".data r).orElse (fun _ => litL "ий".data r) with
        | none => false
        | some r2 => nextNonWord r2)

/-- `\bв\s+случае\s+неисполнени\w*\b.*\bубытк\w*\b` (local_llm.py 235). -/
def bp5At (prev : Option Char) (s : List Char) : Bool :=
  !(isWordOpt prev) &&
    (match (litL "в".data s |> seqWord "случае"
        |> seqWord "неисполнени" |> skipW) with
     | none => false
     | some r => gapSearchB "убытк" true r)

/-- `\bвозмещени\w*\s+убытк\w*\b` (local_llm.py 236). -/
def bp6At (prev : Option Char) (s : List Char) : Bool :=
  !(isWordOpt prev) &&
    (litL "возмещени".data s |> skipW |> seqWord "убытк").isSome

/-- `\bв\s+случае\s+возникновени\w*\s+спор\w*\b` (local_llm.py 237). -/
def bp7At (prev : Option Char) (s : List Char) : Bool :=
  !(isWordOpt prev) &&
    (litL "в".data s |> seqWord "случае" |> seqWord "возникновени"
      |> skipW |> seqWord "спор").isSome

/-- `\bвести\s+переговор\w*\b` (local_llm.py 238). -/
def bp8At (prev : Option Char) (s : List Char) : Bool :=
  !(isWordOpt prev) &&
    (litL "вести".data s |> seqWord "переговор").isSome

/-- Any of `boilerplate_patterns` matches (local_llm.py 240). -/
def boilerplateFound (low : List Char) : Bool :=
  anySuffixPrev bp1At none low || anySuffixPrev bp2At none low
    || anySuffixPrev bp3At none low || anySuffixPrev bp4At none low
    || anySuffixPrev bp5At none low || anySuffixPrev bp6At none low
    || anySuffixPrev bp7At none low || anySuffixPrev bp8At none low

/-- Helper for `stem(a|b)\s+stem2(c|d)\b`-shaped out-of-scope patterns. -/
def twoStemAlt (stem1 : String) (sufs1 : List String) (stem2 : String)
    (sufs2 : List String) (prev : Option Char) (s : List Char) : Bool :=
  !(isWordOpt prev) &&
    (match ((litL stem1.data s).bind (fun r =>
        sufs1.foldr (fun w acc =>
          (litL w.data r).orElse (fun _ => acc)) none)
        |> seqWord stem2) with
     | none => false
     | some r2 =>
        match sufs2.foldr (fun w acc =>
            (litL w.data r2).orElse (fun _ => acc)) none with
        | none => false
        | some r3 => nextNonWord r3)

/-- `stem(a|b|..)\b`-shaped out-of-scope pattern. -/
def stemAltB (stem : String) (sufs : List String) (prev : Option Char)
    (s : List Char) : Bool :=
  !(isWordOpt prev) &&
    (match (litL stem.data s).bind (fun r =>
        sufs.foldr (fun w acc =>
          (litL w.data r).orElse (fun _ => acc)) none) with
     | none => false
     | some r2 => nextNonWord r2)

/-- `\bфорс[- ]?мажор\b` (local_llm.py 256). -/
def oosForsMajor (prev : Option Char) (s : List Char) : Bool :=
  !(isWordOpt prev) &&
    (match litL "форс".data s with
     | none => false
     | some r =>
        (match r with
         | c :: r2 =>
            if c = '-' ∨ c = ' ' then
              (match litL "мажор".data r2 with
               | some r3 => nextNonWord r3
               | none =>
                  match litL "мажор".data r with
                  | some r3 => nextNonWord r3
                  | none => false)
            else
              match litL "мажор".data r with
              | some r3 => nextNonWord r3
              | none => false
         | [] => false))

/-- `\bконфиденциал(ьн|)\w*\b` (local_llm.py 260): the group and `\w*`
together absorb any word tail. -/
def oosConfidential (prev : Option Char) (s : List Char) : Bool :=
  !(isWordOpt prev) && (litL "конфиденциал".data s).isSome

/-- `\bнастоящ(ие|ий)\s+уведомлени(я|е)\s+направля(ется|ются)\s+по\s+адрес(у|ам)\b`
(local_llm.py 270). -/
def oosNotices (prev : Option Char) (s : List Char) : Bool :=
  !(isWordOpt prev) &&
    (match ((litL "настоящ".data s).bind (fun r =>
        (litL "ие".data r).orElse (fun _ => litL "ий".data r))
        |> seqWord "уведомлени") with
     | none => false
     | some r =>
        match ((oneOf ['я', 'е'] r) |> seqWord "направля") with
        | none => false
        | some r2 =>
           match ((litL "ется".data r2).orElse (fun _ => litL "ются".data r2)
               |> seqWord "по" |> seqWord "адрес") with
           | none => false
           | some r3 =>
              match (litL "у".data r3).orElse (fun _ => litL "ам".data r3) with
              | none => false
              | some r4 => nextNonWord r4)

/-- Any of `out_of_scope_patterns` matches (local_llm.py 245-272), in
source order. -/
def outOfScopeFound (low : List Char) : Bool :=
  anySuffixPrev (twoStemAlt "применим" ["ое", "ого"] "прав" ["о", "а"])
      none low
    || anySuffixPrev (stemAltB "подсудност" ["ь", "и"]) none low
    || anySuffixPrev (stemAltB "юрисдикц" ["ия", "ии"]) none low
    || anySuffixPrev (twoStemAlt "арбитражн" ["ый", "ого"] "суд" [""])
      none low
    || anySuffixPrev (twoStemAlt "третейск" ["ий", "ого"] "суд" [""])
      none low
    || anySuffixPrev (twoStemAlt "судебн" ["ый", "ого"] "поряд" ["ок", "ке"])
      none low
    || anySuffixPrev (fun prev s =>
        !(isWordOpt prev) &&
          (match ((litL "мест".data s).bind (oneOf ['о', 'а'])
              |> seqWord "рассмотрени") with
           | none => false
           | some r =>
              match ((oneOf ['я', 'е'] r) |> seqWord "спор") with
              | none => false
              | some r2 =>
                 match (litL "ов".data r2).orElse
                     (fun _ => litL "а".data r2) with
                 | none => false
                 | some r3 => nextNonWord r3)) none low
    || anySuffixPrev oosForsMajor none low
    || anySuffixPrev (twoStemAlt "непреодолим" ["ая", "ой"] "сил" ["а", "ы"])
      none low
    || anySuffixPrev oosConfidential none low
    || anySuffixPrev (twoStemAlt "коммерческ" ["ая", "ой"] "тайн" ["а", "ы"])
      none low
    || anySuffixPrev (stemAltB "расторжен" ["ие", "ия"]) none low
    || anySuffixPrev (twoStemAlt "срок" [""] "действия" [""]) none low
    || anySuffixPrev (stemAltB "прекращен" ["ие", "ия"]) none low
    || anySuffixPrev (twoStemAlt "раздел" [""] "уведомлени" ["я", "й"])
      none low
    || anySuffixPrev oosNotices none low

/-- The penalty keywords (local_llm.py 277). -/
def penaltyFound (low : List Char) : Bool :=
  hasSub "пеня" low || hasSub "неустойк" low || hasSub "штраф" low
    || hasSub "санкц" low

/-- The `forbidden` banking-detail markers (local_llm.py 282-289). -/
def bankMarkerFound (low : List Char) : Bool :=
  hasSub "банковские реквизиты" low
    || hasSub "р/с" low || hasSub "к/с" low || hasSub "корр" low
    || hasSub "корр.счет" low || hasSub "корреспондентск" low
    || hasSub "бик" low || hasSub "iban" low || hasSub "swift" low
    || hasSub "bic" low || hasSub "account no" low
    || hasSub "account number" low || hasSub "bank code" low
    || hasSub "routing number" low || hasSub "банковских реквизит" low

/-- `re.search(r"\d{12,}", low)` (local_llm.py 294). -/
def hasLongDigitRun (low : List Char) : Bool :=
  anySuffix (fun s => 12 ≤ digitsRun s) low

/-- The conflicting payment-date check (local_llm.py 299-301). -/
def conflictingPaymentDate (low : List Char) : Bool :=
  (hasSub "дата списан" low || hasSub "днем списан" low
      || hasSub "днём списан" low || hasSub "момент списан" low)
    && (hasSub "дата зачисл" low || hasSub "днем зачисл" low
      || hasSub "днём зачисл" low || hasSub "момент зачисл" low)

/-- `payment_terms_validator` (local_llm.py 190-306): the validator
closure built by the factory, as a function of the two feature flags and
`min_chars_no_spaces` (default 750). -/
def paymentTermsValidatorLLM (bankDetailsIncluded : Bool)
    (latePaymentPenaltyEnabled : Bool) (minCharsNoSpaces : Nat)
    (text : String) : Option String :=
  if text = "" then some "too_short"
  else if lenNoSpaces text.data < minCharsNoSpaces then some "too_short"
  else if countListItems text.data < 20 then some "too_few_list_items"
  else if placeholderFound text.data then some "contains_placeholders"
  else
    let low := text.data.map toLowerRu
    if mixedPartyTerms low then some "mixed_party_terms"
    else if detectRepetition text.data then some "repetition_detected"
    else if boilerplateFound low then some "contains_boilerplate"
    else if outOfScopeFound low then some "contains_out_of_scope_topics"
    else if !latePaymentPenaltyEnabled && penaltyFound low then
      some "contains_penalty"
    else if !bankDetailsIncluded
        && (bankMarkerFound low || hasLongDigitRun low) then
      some "contains_bank_details"
    else if conflictingPaymentDate low then
      some "conflicting_payment_date_definition"
    else none

/-! ## Theorems: retry controller (C1, C2, C3) -/

lemma gwrGo_bounds (maxRetries : Nat) (gen : Nat → String)
    (validator : Option (String → Option String)) :
    ∀ fuel attempt lastText lastErr, maxRetries + 1 - attempt ≤ fuel →
      (gwrGo maxRetries gen validator attempt lastText lastErr).2
          ≤ maxRetries + 1 - attempt ∧
        (gwrGo maxRetries gen validator attempt lastText lastErr).1.2.2
          ≤ max (maxRetries + 1) attempt := by
  intro fuel
  induction fuel with
  | zero =>
    intro attempt lastText lastErr hfuel
    have h : ¬ attempt ≤ maxRetries := by omega
    rw [gwrGo]
    simp only [h, dif_neg, not_false_iff]
    constructor <;> omega
  | succ fuel ih =>
    intro attempt lastText lastErr hfuel
    rw [gwrGo]
    split
    case isTrue h =>
      dsimp only
      split
      · exact ⟨by dsimp only; omega, by dsimp only; omega⟩
      · split
        · exact ⟨by dsimp only; omega, by dsimp only; omega⟩
        · split
          · have hrec := ih (attempt + 1) (gen attempt) lastErr (by omega)
            dsimp only
            exact ⟨by omega, by omega⟩
          · exact ⟨by dsimp only; omega, by dsimp only; omega⟩
    case isFalse h =>
      dsimp only
      exact ⟨by omega, by omega⟩

/-- **C3.** For every validator, generation oracle and retry bound, the
retry controller performs at most `max_retries + 1` generation calls and
returns `attempts_used ≤ max_retries + 1`. -/
theorem gwr_retry_bound (maxRetries : Nat) (gen : Nat → String)
    (validator : Option (String → Option String)) :
    generateWithRetryCalls maxRetries gen validator ≤ maxRetries + 1 ∧
      (generateWithRetry maxRetries gen validator).2.2 ≤ maxRetries + 1 := by
  have h := gwrGo_bounds maxRetries gen validator (maxRetries + 1) 0 "" none
    (by omega)
  have h1 := h.1
  have h2 := h.2
  exact ⟨by simpa [generateWithRetryCalls] using h1,
    by simpa [generateWithRetry] using h2⟩

/-- A run whose validator constantly returns one retryable kind consumes
every allowed attempt and then returns `(last_text, last_err, attempt)`
with `last_err` still `None` — the Python loop never assigns `last_err`. -/
lemma gwrGo_const_retryable (maxRetries : Nat) (gen : Nat → String)
    (v : String → Option String) (k : String)
    (hk : k ∈ retryableKinds) (hv : ∀ t, v t = some k) :
    ∀ fuel attempt lastText lastErr, maxRetries - attempt < fuel →
      attempt ≤ maxRetries →
      gwrGo maxRetries gen (some v) attempt lastText lastErr
        = ((gen maxRetries, lastErr, maxRetries + 1), maxRetries + 1 - attempt) := by
  intro fuel
  induction fuel with
  | zero => intro attempt _ _ hf _; omega
  | succ fuel ih =>
    intro attempt lastText lastErr hf hle
    rw [gwrGo]
    simp only [hle, dif_pos, hv, hk, if_pos]
    by_cases hlast : attempt = maxRetries
    · subst hlast
      rw [gwrGo]
      simp only [Nat.not_succ_le_self, dif_neg, not_false_iff]
      have : attempt + 1 - attempt = 1 := by omega
      simp [this]
    · rw [ih (attempt + 1) (gen attempt) lastErr (by omega) (by omega)]
      have : maxRetries + 1 - attempt = (maxRetries + 1 - (attempt + 1)) + 1 := by
        omega
      simp [this]

/-- One unfolding of the loop at attempt 0 when the first outcome is a
non-retryable kind: the controller returns at once. -/
lemma gwrGo_terminal_first (maxRetries : Nat) (gen : Nat → String)
    (v : String → Option String) (k : String)
    (hv : v (gen 0) = some k) (hk : k ∉ retryableKinds) :
    gwrGo maxRetries gen (some v) 0 "" none
      = ((gen 0, some k, 1), 1) := by
  rw [gwrGo]
  simp only [Nat.zero_le, dif_pos, hv, hk, if_neg, not_false_iff]

/-- **C1 counterexample.** With the retry budget `max_retries = 2` (the
config default) and a validator that reports `too_few_list_items`,
`generate_with_retry` returns after a single generation call with that
kind — it does NOT re-attempt, although the bound would allow three
attempts.  The claim's classification of `too_few_list_items` (and
`empty_output`) as retryable is false for this code. -/
theorem c1_too_few_list_items_not_retried :
    generateWithRetry 2 (fun _ => "out")
        (some (fun _ => some "too_few_list_items"))
        = ("out", some "too_few_list_items", 1) ∧
      generateWithRetryCalls 2 (fun _ => "out")
          (some (fun _ => some "too_few_list_items")) = 1 ∧
      (1 : Nat) < 2 + 1 := by
  have h := gwrGo_terminal_first 2 (fun _ => "out")
    (fun _ => some "too_few_list_items") "too_few_list_items" rfl (by decide)
  refine ⟨?_, ?_, by omega⟩
  · simpa [generateWithRetry] using congrArg Prod.fst h
  · simpa [generateWithRetryCalls] using congrArg Prod.snd h

/-- **C1 (amended).** The controller classifies exactly `too_short` and
`repetition_detected` as retryable.  Any other kind — including
`empty_output` and `too_few_list_items` — is terminal: the controller
returns immediately with that kind after a single generation call.  For a
retryable kind the controller re-attempts while the bound allows: a
validator constantly producing a retryable kind drives exactly
`max_retries + 1` generation calls. -/
theorem c1_retry_classification (maxRetries : Nat) (gen : Nat → String)
    (v : String → Option String) (k : String) :
    (v (gen 0) = some k → k ∉ retryableKinds →
        generateWithRetry maxRetries gen (some v) = (gen 0, some k, 1) ∧
          generateWithRetryCalls maxRetries gen (some v) = 1) ∧
      ((∀ t, v t = some k) → k ∈ retryableKinds →
        generateWithRetryCalls maxRetries gen (some v) = maxRetries + 1) := by
  constructor
  · intro hv hk
    have h := gwrGo_terminal_first maxRetries gen v k hv hk
    exact ⟨by simpa [generateWithRetry] using congrArg Prod.fst h,
      by simpa [generateWithRetryCalls] using congrArg Prod.snd h⟩
  · intro hv hk
    have h := gwrGo_const_retryable maxRetries gen v k hk hv
      (maxRetries + 1) 0 "" none (by omega) (by omega)
    simpa [generateWithRetryCalls] using congrArg Prod.snd h

/-- Witness for `c1_retry_classification` at concrete inputs:
`empty_output` is terminal (single call), `too_short` is retried to the
bound (three calls for `max_retries = 2`). -/
theorem c1_retry_classification_witness :
    (generateWithRetry 2 (fun _ => "w") (some (fun _ => some "empty_output"))
        = ("w", some "empty_output", 1) ∧
      generateWithRetryCalls 2 (fun _ => "w")
          (some (fun _ => some "empty_output")) = 1) ∧
      generateWithRetryCalls 2 (fun _ => "w")
          (some (fun _ => some "too_short")) = 2 + 1 :=
  ⟨(c1_retry_classification 2 (fun _ => "w")
      (fun _ => some "empty_output") "empty_output").1 rfl (by decide),
    (c1_retry_classification 2 (fun _ => "w")
      (fun _ => some "too_short") "too_short").2 (fun _ => rfl) (by decide)⟩

/-- **C2 (code bug).** When a retryable kind persists past the retry
bound, `generate_with_retry` returns `last_err`, but the Python loop
never assigns `last_err`, so the failure is surfaced as
`(last_text, None, attempts)`: the error component is `None`, which the
function's own docstring (`err_code == None => успех`) and its caller
(`run_generate.py`: `if err: raise`) interpret as success.  Here: a
validator constantly reporting `too_short` with `max_retries = 2`
exhausts three attempts and returns error `none`, not
`some "too_short"` as the claim requires. -/
theorem c2_exhausted_retries_return_none :
    generateWithRetry 2 (fun _ => "too short output")
        (some (fun _ => some "too_short"))
        = ("too short output", none, 3) ∧
      generateWithRetryCalls 2 (fun _ => "too short output")
          (some (fun _ => some "too_short")) = 3 := by
  have h := gwrGo_const_retryable 2 (fun _ => "too short output")
    (fun _ => some "too_short") "too_short" (by decide) (fun _ => rfl)
    3 0 "" none (by omega) (by omega)
  exact ⟨by simpa [generateWithRetry] using congrArg Prod.fst h,
    by simpa [generateWithRetryCalls] using congrArg Prod.snd h⟩

/-! ## Theorems: BM25 (C5, C6) -/

lemma bmScore_foldl_eq (k1 b : ℝ) (docs : List Doc) (i : Nat) :
    ∀ (q : List String) (acc : ℝ),
      q.foldl (fun acc t =>
          if bmTF docs i t = 0 then acc
          else acc + bmTermContribution k1 b docs i t (bmTF docs i t)) acc
        = acc + (q.map (fun t =>
            bmTermContribution k1 b docs i t (bmTF docs i t))).sum := by
  intro q
  induction q with
  | nil => intro acc; simp
  | cons t q ih =>
    intro acc
    simp only [List.foldl_cons, List.map_cons, List.sum_cons, ih]
    by_cases h : bmTF docs i t = 0
    · have h0 : bmTermContribution k1 b docs i t 0 = 0 := by
        simp [bmTermContribution]
      simp only [h, if_pos, h0]
      ring
    · simp only [h, if_neg, not_false_iff]
      ring

lemma bmDF_zero_tf_zero (docs : List Doc) (t : String)
    (h : bmDF docs t = 0) (i : Nat) : bmTF docs i t = 0 := by
  have hall : ∀ ts ∈ bmToks docs, t ∉ ts := by
    intro ts hts hmem
    have : ts ∈ (bmToks docs).filter (fun ts => t ∈ ts) := by
      rw [List.mem_filter]; exact ⟨hts, by simpa using hmem⟩
    have : (bmToks docs).filter (fun ts => t ∈ ts) ≠ [] := by
      intro hnil; rw [hnil] at this; simp at this
    have hlen := List.length_pos.mpr this
    rw [bmDF] at h; omega
  rw [bmTF]
  by_cases hi : i < (bmToks docs).length
  · have := hall ((bmToks docs).getD i []) (by
      rw [List.getD_eq_getElem _ _ hi]; exact List.getElem_mem _)
    exact List.count_eq_zero.mpr this
  · rw [List.getD_eq_default _ _ (by omega)]
    simp

/-- **C5.** For any indexed corpus, the BM25 score of document `i` for a
query is the sum over the query terms of
`idf(t) · f·(k1+1)/(f + k1·(1−b+b·|d|/avgdl))` (terms absent from the
document contribute zero), and a term with document frequency 0 has zero
idf and contributes zero to every document's score. -/
theorem c5_bm25_score_formula (k1 b : ℝ) (docs : List Doc)
    (q : List String) (i : Nat) (t : String) :
    bmScore k1 b docs q i
        = (q.map (fun s =>
            bmTermContribution k1 b docs i s (bmTF docs i s))).sum ∧
      (bmDF docs t = 0 →
        bmIdf docs t = 0 ∧
          bmScore k1 b docs (t :: q) i = bmScore k1 b docs q i) := by
  have hfold : ∀ (q' : List String),
      bmScore k1 b docs q' i = (q'.map (fun s =>
        bmTermContribution k1 b docs i s (bmTF docs i s))).sum := by
    intro q'
    rw [bmScore]
    by_cases hq : q' = []
    · simp [hq]
    · simp only [hq, if_neg, not_false_iff]
      rw [bmScore_foldl_eq]; ring
  refine ⟨hfold q, fun hdf => ⟨by simp [bmIdf, hdf], ?_⟩⟩
  rw [hfold (t :: q), hfold q]
  have htf := bmDF_zero_tf_zero docs t hdf i
  simp [htf, bmTermContribution]

/-- Witness for `c5_bm25_score_formula`: in a one-document corpus the
term `zzz` occurs nowhere, so its idf is zero and prepending it to a
query leaves the score unchanged. -/
theorem c5_bm25_score_formula_witness :
    bmIdf [⟨"d1", "", "", "ru", "", "alpha beta alpha"⟩] "zzz" = 0 ∧
      bmScore bmK1 bmB [⟨"d1", "", "", "ru", "", "alpha beta alpha"⟩]
          ["zzz", "alpha"] 0
        = bmScore bmK1 bmB [⟨"d1", "", "", "ru", "", "alpha beta alpha"⟩]
          ["alpha"] 0 :=
  (c5_bm25_score_formula bmK1 bmB [⟨"d1", "", "", "ru", "", "alpha beta alpha"⟩]
    ["alpha"] 0 "zzz").2 (by decide)

lemma bmAvgdlEff_pos (docs : List Doc) : 0 < bmAvgdlEff docs := by
  rw [bmAvgdlEff]
  by_cases h : bmAvgdl docs = 0
  · simp [h]
  · simp only [h, if_neg, not_false_iff]
    rcases lt_trichotomy (bmAvgdl docs) 0 with hlt | heq | hgt
    · exfalso
      rw [bmAvgdl] at hlt
      by_cases hn : bmN docs = 0
      · simp [hn] at hlt; linarith
      · simp only [hn, if_neg, not_false_iff] at hlt
        have h1 : (0 : ℝ) ≤ (((bmToks docs).map List.length).sum : ℝ) := by
          positivity
        have h2 : (0 : ℝ) < (bmN docs : ℝ) := by
          have := Nat.pos_of_ne_zero hn; exact_mod_cast this
        have := div_nonneg h1 (le_of_lt h2)
        linarith
    · exact absurd heq h
    · exact hgt

lemma bmDenomK_pos (docs : List Doc) (i : Nat) :
    0 < bmDenomK bmK1 bmB docs i := by
  rw [bmDenomK, bmK1, bmB]
  have h1 : (1 : ℝ) ≤ (bmDlEff docs i : ℝ) := by
    rw [bmDlEff]
    by_cases h : bmDocLen docs i = 0
    · simp [h]
    · simp only [h, if_neg, not_false_iff]
      have := Nat.pos_of_ne_zero h
      exact_mod_cast this
  have h2 := bmAvgdlEff_pos docs
  have h3 : 0 < (bmDlEff docs i : ℝ) / bmAvgdlEff docs := by positivity
  nlinarith

lemma bmIdf_pos (docs : List Doc) (t : String)
    (h1 : 1 ≤ bmDF docs t) : 0 < bmIdf docs t := by
  have hN : bmDF docs t ≤ bmN docs := by
    rw [bmDF, bmN]
    calc ((bmToks docs).filter (fun ts => t ∈ ts)).length
        ≤ (bmToks docs).length := List.length_filter_le _ _
      _ = docs.length := by rw [bmToks, List.length_map]
  rw [bmIdf]
  have hne : bmDF docs t ≠ 0 := by omega
  simp only [hne, if_neg, not_false_iff]
  apply Real.log_pos
  have hnum : (0 : ℝ) < (bmN docs : ℝ) - (bmDF docs t : ℝ) + 0.5 := by
    have : (bmDF docs t : ℝ) ≤ (bmN docs : ℝ) := by exact_mod_cast hN
    linarith
  have hden : (0 : ℝ) < (bmDF docs t : ℝ) + 0.5 := by positivity
  have : 0 < ((bmN docs : ℝ) - (bmDF docs t : ℝ) + 0.5)
      / ((bmDF docs t : ℝ) + 0.5) := div_pos hnum hden
  linarith

lemma bmDF_pos_of_mem (docs : List Doc) (i : Nat) (t : String)
    (h : t ∈ (bmToks docs).getD i []) : 1 ≤ bmDF docs t := by
  have hi : i < (bmToks docs).length := by
    by_contra hge
    rw [List.getD_eq_default _ _ (by omega)] at h
    simp at h
  rw [bmDF]
  have hmem : (bmToks docs).getD i [] ∈
      (bmToks docs).filter (fun ts => t ∈ ts) := by
    rw [List.mem_filter]
    refine ⟨?_, by simpa using h⟩
    rw [List.getD_eq_getElem _ _ hi]; exact List.getElem_mem _
  have := List.length_pos.mpr (List.ne_nil_of_mem hmem)
  omega

/-- **C6.** For every document of an indexed corpus and every query term
occurring in it, the term's BM25 contribution (with the default
`k1 = 1.5`, `b = 0.75`) is strictly increasing in the term's frequency,
holding the document length and the index statistics fixed. -/
theorem c6_bm25_contribution_strict_mono (docs : List Doc) (i : Nat)
    (t : String) (f1 f2 : Nat)
    (hmem : t ∈ (bmToks docs).getD i []) (hlt : f1 < f2) :
    bmTermContribution bmK1 bmB docs i t f1
      < bmTermContribution bmK1 bmB docs i t f2 := by
  have hidf := bmIdf_pos docs t (bmDF_pos_of_mem docs i t hmem)
  have hK := bmDenomK_pos docs i
  rw [bmTermContribution, bmTermContribution]
  apply mul_lt_mul_of_pos_left _ hidf
  have hf : (f1 : ℝ) < (f2 : ℝ) := by exact_mod_cast hlt
  have hf1 : (0 : ℝ) ≤ (f1 : ℝ) := by positivity
  have hd1 : (0 : ℝ) < (f1 : ℝ) + bmDenomK bmK1 bmB docs i := by linarith
  have hd2 : (0 : ℝ) < (f2 : ℝ) + bmDenomK bmK1 bmB docs i := by linarith
  rw [div_lt_div_iff₀ hd1 hd2]
  have hk1 : (0 : ℝ) < bmK1 + 1 := by rw [bmK1]; norm_num
  nlinarith [mul_pos (mul_pos hk1 hK) (sub_pos.mpr hf)]

/-- Witness for `c6_bm25_contribution_strict_mono`: the term `alpha`
occurs in the single indexed document; raising its frequency from 1 to 2
strictly raises its contribution. -/
theorem c6_bm25_contribution_strict_mono_witness :
    bmTermContribution bmK1 bmB
        [⟨"d1", "", "", "ru", "", "alpha beta alpha"⟩] 0 "alpha" 1
      < bmTermContribution bmK1 bmB
        [⟨"d1", "", "", "ru", "", "alpha beta alpha"⟩] 0 "alpha" 2 :=
  c6_bm25_contribution_strict_mono
    [⟨"d1", "", "", "ru", "", "alpha beta alpha"⟩] 0 "alpha" 1 2
    (by decide) (by decide)

/-! ## Theorems: diversification (C4) -/

lemma jaccardSim_comm (a b : String) : jaccardSim a b = jaccardSim b a := by
  by_cases h : shingles a 7 = ∅ ∨ shingles b 7 = ∅
  · have h' : shingles b 7 = ∅ ∨ shingles a 7 = ∅ := h.symm
    simp only [jaccardSim, h, h', if_pos]
  · have h' : ¬ (shingles b 7 = ∅ ∨ shingles a 7 = ∅) := fun hc => h hc.symm
    simp only [jaccardSim, h, h', if_neg, not_false_iff]
    rw [Finset.inter_comm, Finset.union_comm]

lemma jaccard_lt_of_not_tooSimilar (a b : String)
    (h : tooSimilar a b = false) : jaccardSim a b < 0.55 := by
  rw [tooSimilar] at h
  rw [jaccardSim]
  by_cases hemp : shingles a 7 = ∅ ∨ shingles b 7 = ∅
  · simp only [hemp, if_pos]
    norm_num
  · simp only [hemp, if_neg, not_false_iff] at h ⊢
    by_cases hu : (shingles a 7 ∪ shingles b 7).card = 0
    · exfalso
      push_neg at hemp
      have := Finset.card_eq_zero.mp hu
      rw [Finset.union_eq_empty] at this
      exact hemp.1 this.1
    · simp only [hu, if_neg, not_false_iff, decide_eq_false_iff_not,
        not_le] at h
      exact h

lemma selectDiverseGo_pairwise {α : Type} (docs : List Doc)
    (mask : String → String) (topK : Nat) :
    ∀ (hits : List (Nat × α)) (chosen used : List String),
      chosen.Pairwise (fun x y => tooSimilar y x = false) →
      (selectDiverseGo docs mask topK hits chosen used).Pairwise
        (fun x y => tooSimilar y x = false) := by
  intro hits
  induction hits with
  | nil => intro chosen used hch; simpa [selectDiverseGo] using hch
  | cons hit hits ih =>
    intro chosen used hch
    obtain ⟨i, s⟩ := hit
    rw [selectDiverseGo]
    split
    · exact ih chosen used hch
    · by_cases hany : (chosen.any fun prev =>
          tooSimilar (mask (docs.getD i emptyDoc).text) prev) = true
      · simp only [hany, if_pos]
        exact ih chosen used hch
      · have hany' : (chosen.any fun prev =>
            tooSimilar (mask (docs.getD i emptyDoc).text) prev) = false := by
          simpa using hany
        have hall : ∀ x ∈ chosen,
            tooSimilar (mask (docs.getD i emptyDoc).text) x = false := by
          intro x hx
          have := List.any_eq_false.mp hany' x hx
          simpa using this
        have hch' : (chosen ++ [mask (docs.getD i emptyDoc).text]).Pairwise
            (fun x y => tooSimilar y x = false) := by
          rw [List.pairwise_append]
          refine ⟨hch, List.pairwise_singleton _ _, ?_⟩
          intro x hx y hy
          rw [List.mem_singleton] at hy
          subst hy
          exact hall x hx
        simp only [hany', Bool.false_eq_true, if_neg, not_false_iff]
        repeat' split
        all_goals first
          | exact hch'
          | exact ih _ _ hch'

/-- **C4.** Any two distinct candidate texts returned by one retrieval
call (the selection loop shared by `retrieve_payment_terms_bm25` and
`retrieve_delivery_terms_bm25`, for every document list, masking
function, ranked hit list and requested count) have 7-token-shingle-set
Jaccard similarity strictly below 0.55, where a text with fewer than 7
tokens has similarity 0 to everything. -/
theorem c4_diversification_jaccard_below_threshold {α : Type}
    (docs : List Doc) (mask : String → String) (topK : Nat)
    (hits : List (Nat × α)) :
    (selectDiverse docs mask topK hits).Pairwise
      (fun a b => jaccardSim a b < 0.55 ∧ jaccardSim b a < 0.55) := by
  have h := selectDiverseGo_pairwise docs mask topK hits [] []
    List.Pairwise.nil
  refine h.imp ?_
  intro a b hab
  have h1 := jaccard_lt_of_not_tooSimilar b a hab
  exact ⟨by rw [jaccardSim_comm]; exact h1, h1⟩

/-! ## Theorems: sanitizer (C7, C10) -/

/-- **C7 (code bug).** Anonymization is not idempotent: on
`"12, указанных в пункте 5 настоящего контракта 345"` the first
application removes the cross-reference phrase, juxtaposing the digit
groups into `"12 345"` — an un-scrubbed monetary-amount pattern — and a
second application performs one further substitution, rewriting the
text to `"[AMOUNT]"` instead of performing zero substitutions and
returning it unchanged. -/
theorem c7_anonymize_not_idempotent :
    anonymizePaymentTerms "12, указанных в пункте 5 настоящего контракта 345"
        = ("12 345", 1) ∧
      anonymizePaymentTerms "12 345" = ("[AMOUNT]", 1) ∧
      ("12 345" : String) ≠ "[AMOUNT]" :=
  ⟨by decide, by decide, by decide⟩

lemma length_filter_partition {α : Type} (p : α → Bool) (l : List α) :
    (l.filter p).length + (l.filter (fun x => !(p x))).length = l.length := by
  induction l with
  | nil => simp
  | cons x xs ih =>
    by_cases h : p x <;> simp [List.filter_cons, h, ← ih] <;> omega

lemma dedupeKeepOrderGo_length_le :
    ∀ (items : List String) (seen : List (List Char)),
      (dedupeKeepOrderGo items seen).length ≤ items.length := by
  intro items
  induction items with
  | nil => intro seen; simp [dedupeKeepOrderGo]
  | cons x xs ih =>
    intro seen
    rw [dedupeKeepOrderGo]
    split
    · exact le_trans (ih seen) (by simp)
    · simpa using ih (caseFold x.data :: seen)

/-- **C10.** For every list of input precedents and every
`min_chars`/`max_chars` setting, the `CleanReport` satisfies
`input_count = output_count + dropped_empty + dropped_duplicates`, and
`output_count` is the length of the returned list. -/
theorem c10_clean_report_conservation (precedents : List String)
    (minChars maxChars : Nat) :
    (cleanPrecedentsPaymentTerms precedents minChars maxChars).2.input_count
        = (cleanPrecedentsPaymentTerms precedents minChars maxChars).2.output_count
          + (cleanPrecedentsPaymentTerms precedents minChars maxChars).2.dropped_empty
          + (cleanPrecedentsPaymentTerms precedents minChars maxChars).2.dropped_duplicates
      ∧ (cleanPrecedentsPaymentTerms precedents minChars maxChars).2.output_count
        = (cleanPrecedentsPaymentTerms precedents minChars maxChars).1.length := by
  unfold cleanPrecedentsPaymentTerms
  dsimp only
  refine ⟨?_, rfl⟩
  have hpart := length_filter_partition
    (fun t => decide (t.length < minChars)) (precedents.map cleanStage1)
  have hmap : (precedents.map cleanStage1).length = precedents.length :=
    List.length_map _ _
  have hde : (dedupeKeepOrder
      ((((precedents.map cleanStage1).filter
          (fun t => !decide (t.length < minChars))).map anonymizePaymentTermsL).map
            (fun r => truncateSentenceSafe r.1.asString maxChars)
        |>.filter (fun t => pyStrip t.data ≠ []))).length
      ≤ ((((precedents.map cleanStage1).filter
          (fun t => !decide (t.length < minChars))).map anonymizePaymentTermsL).map
            (fun r => truncateSentenceSafe r.1.asString maxChars)).length := by
    exact le_trans (dedupeKeepOrderGo_length_le _ _) (List.length_filter_le _ _)
  rw [dedupeKeepOrder]
  have hlen : ((((precedents.map cleanStage1).filter
      (fun t => !decide (t.length < minChars))).map anonymizePaymentTermsL).map
        (fun r => truncateSentenceSafe r.1.asString maxChars)).length
      = ((precedents.map cleanStage1).filter
        (fun t => !decide (t.length < minChars))).length := by
    simp
  rw [dedupeKeepOrder] at hde
  omega

/-! ## Theorems: sentence-safe truncation (C8) -/

lemma length_asString (l : List Char) : (List.asString l).length = l.length :=
  rfl

lemma pyStrip_length_le (cs : List Char) : (pyStrip cs).length ≤ cs.length := by
  rw [pyStrip]
  calc ((cs.dropWhile pySpace).reverse.dropWhile pySpace).reverse.length
      = ((cs.dropWhile pySpace).reverse.dropWhile pySpace).length := by
        rw [List.length_reverse]
    _ ≤ (cs.dropWhile pySpace).reverse.length :=
        (List.dropWhile_suffix _).length_le
    _ = (cs.dropWhile pySpace).length := by rw [List.length_reverse]
    _ ≤ cs.length := (List.dropWhile_suffix _).length_le

lemma cutLastSpace_isPrefix (p : List Char) : cutLastSpace p <+: p := by
  rw [cutLastSpace]
  split
  · exact List.take_prefix _ _
  · exact List.prefix_refl _

lemma cutLastSpace_length_le (p : List Char) :
    (cutLastSpace p).length ≤ p.length :=
  (cutLastSpace_isPrefix p).length_le

lemma cutLastSpace_getD (p : List Char) (h : ' ' ∈ p) :
    p.getD (cutLastSpace p).length ' ' = ' ' := by
  rw [cutLastSpace]
  simp only [h, if_pos]
  have hrev : ' ' ∈ p.reverse := by simpa using h
  have hidx : p.reverse.indexOf ' ' < p.reverse.length :=
    List.indexOf_lt_length.mpr hrev
  have hidx2 : p.reverse.indexOf ' ' < p.length := by
    simpa using hidx
  have hk : (p.length - 1) - p.reverse.indexOf ' ' < p.length := by omega
  have hlen : (p.take ((p.length - 1) - p.reverse.indexOf ' ')).length
      = (p.length - 1) - p.reverse.indexOf ' ' := by
    rw [List.length_take]; omega
  rw [hlen, List.getD_eq_getElem _ _ hk]
  have h2 := List.getElem_indexOf (l := p.reverse) (a := ' ') hidx
  rw [List.getElem_reverse] at h2
  simpa using h2

lemma cutLastSpace_noSpace (p : List Char) (h : ' ' ∉ p) :
    cutLastSpace p = p := by
  rw [cutLastSpace]
  simp [h]

lemma joinedCost_nil (ne : Bool) : joinedCost ne [] = 0 := rfl

lemma joinedCost_cons (ne : Bool) (z : List Char) (r : List (List Char)) :
    joinedCost ne (z :: r)
      = z.length + (if ne then 1 else 0) + joinedCost true r := rfl

lemma joinedCost_true_cons (z : List Char) (r : List (List Char)) :
    joinedCost true (z :: r) = joinedCost false (z :: r) + 1 := by
  rw [joinedCost_cons, joinedCost_cons]
  simp only [if_pos, Bool.false_eq_true, if_false]
  omega

lemma joinSep_space_length (out : List (List Char)) :
    (joinSep [' '] out).length = joinedCost false out := by
  induction out with
  | nil => rfl
  | cons x rest ih =>
    cases rest with
    | nil => simp [joinSep, joinedCost_cons, joinedCost_nil]
    | cons y r =>
      have h1 : joinSep [' '] (x :: y :: r)
          = x ++ [' '] ++ joinSep [' '] (y :: r) := rfl
      rw [h1, joinedCost_cons, joinedCost_true_cons, ← ih]
      simp only [List.length_append, List.length_cons, List.length_nil,
        Bool.false_eq_true, if_false]
      omega

lemma takeSents_nil (maxChars cur : Nat) (ne : Bool) :
    takeSents maxChars [] cur ne = [] := rfl

lemma takeSents_cons (maxChars : Nat) (s : List Char) (ss : List (List Char))
    (cur : Nat) (ne : Bool) :
    takeSents maxChars (s :: ss) cur ne
      = if maxChars < cur + (s.length + if ne then 1 else 0) then []
        else s :: takeSents maxChars ss
          (cur + (s.length + if ne then 1 else 0)) true := rfl

lemma takeSents_isPrefix (maxChars : Nat) :
    ∀ (ss : List (List Char)) (cur : Nat) (ne : Bool),
      takeSents maxChars ss cur ne <+: ss := by
  intro ss
  induction ss with
  | nil =>
    intro cur ne
    rw [takeSents_nil]
  | cons s ss ih =>
    intro cur ne
    rw [takeSents_cons]
    by_cases hb : maxChars < cur + (s.length + if ne then 1 else 0)
    · rw [if_pos hb]
      exact ⟨s :: ss, rfl⟩
    · rw [if_neg hb]
      obtain ⟨t, ht⟩ := ih (cur + (s.length + if ne then 1 else 0)) true
      exact ⟨t, by rw [List.cons_append, ht]⟩

lemma takeSents_fits (maxChars : Nat) :
    ∀ (ss : List (List Char)) (cur : Nat) (ne : Bool),
      takeSents maxChars ss cur ne = [] ∨
        cur + joinedCost ne (takeSents maxChars ss cur ne) ≤ maxChars := by
  intro ss
  induction ss with
  | nil =>
    intro cur ne
    left
    rw [takeSents_nil]
  | cons s ss ih =>
    intro cur ne
    rw [takeSents_cons]
    by_cases hb : maxChars < cur + (s.length + if ne then 1 else 0)
    · left
      rw [if_pos hb]
    · right
      rw [if_neg hb, joinedCost_cons]
      rcases ih (cur + (s.length + if ne then 1 else 0)) true with h0 | hle
      · rw [h0, joinedCost_nil]
        omega
      · omega

lemma takeSents_maximal (maxChars : Nat) :
    ∀ (ss : List (List Char)) (cur : Nat) (ne : Bool),
      ∃ rest, ss = takeSents maxChars ss cur ne ++ rest ∧
        (rest ≠ [] →
          maxChars < cur + joinedCost ne (takeSents maxChars ss cur ne)
            + (rest.headD []).length
            + if ne = true ∨ takeSents maxChars ss cur ne ≠ [] then 1 else 0) := by
  intro ss
  induction ss with
  | nil =>
    intro cur ne
    exact ⟨[], by simp [takeSents_nil], by simp⟩
  | cons s ss ih =>
    intro cur ne
    rw [takeSents_cons]
    by_cases hb : maxChars < cur + (s.length + if ne then 1 else 0)
    · rw [if_pos hb]
      refine ⟨s :: ss, rfl, fun _ => ?_⟩
      have h2 : (if ne = true ∨ ([] : List (List Char)) ≠ [] then 1 else 0)
          = (if ne then 1 else 0) := by
        by_cases hne : ne = true
        · rw [if_pos (Or.inl hne), if_pos hne]
        · rw [if_neg (by simp [hne]), if_neg hne]
      rw [joinedCost_nil, h2]
      simp only [List.headD_cons]
      omega
    · rw [if_neg hb]
      obtain ⟨rest, hrest, hmax⟩ :=
        ih (cur + (s.length + if ne then 1 else 0)) true
      refine ⟨rest, by rw [List.cons_append, ← hrest], fun hne => ?_⟩
      have hm := hmax hne
      have h4 : (if (true : Bool) = true ∨ takeSents maxChars ss
            (cur + (s.length + if ne then 1 else 0)) true ≠ [] then 1 else 0)
          = 1 := by
        rw [if_pos (Or.inl rfl)]
      rw [h4] at hm
      have h2 : (if ne = true ∨ (s :: takeSents maxChars ss
            (cur + (s.length + if ne then 1 else 0)) true) ≠ [] then 1
            else 0) = 1 := by
        rw [if_pos (Or.inr (by simp))]
      rw [h2, joinedCost_cons]
      omega

/-- **C8 counterexample.** A single 20-character word truncated to a
10-character budget is cut in the middle of the word: the result is a
strict prefix of the (single-word) normalized text and the cut point has
word characters on both sides — the claim's "never cut in the middle of
a word" is false. -/
theorem c8_truncate_midword_cut :
    truncateSentenceSafe "aaaaaaaaaaaaaaaaaaaa" 10 = "aaaaaaaaaa" ∧
      normalizeSpaces "aaaaaaaaaaaaaaaaaaaa" = "aaaaaaaaaaaaaaaaaaaa" ∧
      "aaaaaaaaaa".data ++ "aaaaaaaaaa".data = "aaaaaaaaaaaaaaaaaaaa".data ∧
      pyWord 'a' = true ∧ ("aaaaaaaaaa" : String) ≠ "aaaaaaaaaaaaaaaaaaaa" :=
  ⟨by decide, by decide, by decide, by decide, by decide⟩

/-- **C8 (amended).** `truncate_sentence_safe` always returns a text of
length ≤ the budget, and returns the normalized text unchanged whenever
it fits.  Otherwise it keeps a maximal prefix of whole sentences fitting
the budget (the kept sentences are a prefix of the sentence list, their
joined length fits, and adding the next sentence would overflow).  When
no sentence boundary helps, the fallback cuts at the last space before
the budget — a word boundary — provided the budget-length prefix
contains a space; a prefix without any space (a single word longer than
the budget) is kept whole, i.e. the text is cut at exactly the budget,
mid-word. -/
theorem c8_truncate_amended (s : String) (maxChars : Nat) (p : List Char)
    (ss : List (List Char)) (cur : Nat) (ne : Bool) :
    (truncateSentenceSafe s maxChars).length ≤ maxChars ∧
      ((normalizeSpacesL s.data).length ≤ maxChars →
        truncateSentenceSafe s maxChars = normalizeSpaces s) ∧
      (cutLastSpace p <+: p) ∧
      (' ' ∈ p → p.getD (cutLastSpace p).length ' ' = ' ') ∧
      (' ' ∉ p → cutLastSpace p = p) ∧
      (takeSents maxChars ss cur ne <+: ss) ∧
      (takeSents maxChars ss cur ne = [] ∨
        cur + joinedCost ne (takeSents maxChars ss cur ne) ≤ maxChars) ∧
      (∃ rest, ss = takeSents maxChars ss cur ne ++ rest ∧
        (rest ≠ [] →
          maxChars < cur + joinedCost ne (takeSents maxChars ss cur ne)
            + (rest.headD []).length
            + if ne = true ∨ takeSents maxChars ss cur ne ≠ [] then 1
              else 0)) := by
  refine ⟨?_, ?_, cutLastSpace_isPrefix p, cutLastSpace_getD p,
    cutLastSpace_noSpace p, takeSents_isPrefix maxChars ss cur ne,
    takeSents_fits maxChars ss cur ne, takeSents_maximal maxChars ss cur ne⟩
  · rw [truncateSentenceSafe]
    by_cases h1 : (normalizeSpacesL s.data).length ≤ maxChars
    · simp only [h1, if_pos, length_asString]
    · simp only [h1, if_neg, not_false_iff]
      by_cases h2 : splitSentencesL (normalizeSpacesL s.data) = []
      · simp only [h2, if_pos, length_asString]
        calc (pyStrip (cutLastSpace ((normalizeSpacesL s.data).take
              maxChars))).length
            ≤ (cutLastSpace ((normalizeSpacesL s.data).take
              maxChars)).length := pyStrip_length_le _
          _ ≤ ((normalizeSpacesL s.data).take maxChars).length :=
              cutLastSpace_length_le _
          _ ≤ maxChars := by rw [List.length_take]; omega
      · simp only [h2, if_neg, not_false_iff]
        by_cases h3 : takeSents maxChars
            (splitSentencesL (normalizeSpacesL s.data)) 0 false = []
        · simp only [h3, if_pos, length_asString]
          calc (pyStrip (cutLastSpace (((splitSentencesL
                  (normalizeSpacesL s.data)).headD []).take
                maxChars))).length
              ≤ (cutLastSpace (((splitSentencesL
                  (normalizeSpacesL s.data)).headD []).take
                maxChars)).length := pyStrip_length_le _
            _ ≤ (((splitSentencesL (normalizeSpacesL s.data)).headD
                []).take maxChars).length := cutLastSpace_length_le _
            _ ≤ maxChars := by rw [List.length_take]; omega
        · simp only [h3, if_neg, not_false_iff, length_asString]
          rcases takeSents_fits maxChars
              (splitSentencesL (normalizeSpacesL s.data)) 0 false with
            h0 | hle
          · exact absurd h0 h3
          · calc (pyStrip (joinSep [' '] (takeSents maxChars
                  (splitSentencesL (normalizeSpacesL s.data)) 0
                  false))).length
                ≤ (joinSep [' '] (takeSents maxChars
                  (splitSentencesL (normalizeSpacesL s.data)) 0
                  false)).length := pyStrip_length_le _
              _ = joinedCost false (takeSents maxChars
                  (splitSentencesL (normalizeSpacesL s.data)) 0 false) :=
                  joinSep_space_length _
              _ ≤ maxChars := by omega
  · intro h1
    rw [truncateSentenceSafe, normalizeSpaces]
    simp [h1]

/-- Witness for `c8_truncate_amended` at concrete inputs: a text that
fits is returned unchanged; a budget prefix with a space is cut at that
space; a budget prefix without spaces is kept whole. -/
theorem c8_truncate_amended_witness :
    truncateSentenceSafe "Alpha beta. Gamma!" 30 =
        normalizeSpaces "Alpha beta. Gamma!" ∧
      "alpha beta".data.getD (cutLastSpace "alpha beta".data).length ' '
        = ' ' ∧
      cutLastSpace "alphabeta".data = "alphabeta".data :=
  ⟨(c8_truncate_amended "Alpha beta. Gamma!" 30 [] [] 0 false).2.1
      (by decide),
    (c8_truncate_amended "" 0 "alpha beta".data [] 0 false).2.2.2.1
      (by decide),
    (c8_truncate_amended "" 0 "alphabeta".data [] 0 false).2.2.2.2.1
      (by decide)⟩

/-! ## Theorems: payment-terms validator bank-details flag (C9) -/

/-- **C9.** For the payment-terms validator (local_llm.py 190-306),
for any penalty-flag setting, minimum length, and text: if the text
contains a banking marker (the `forbidden` substring list, e.g. an
IBAN token) and passes all other checks — expressed as acceptance by
the validator built with `bank_details_included = True` — then the
validator built with the flag `False` rejects it with kind
`contains_bank_details`, while the flag-`True` validator accepts it. -/
theorem c9_bank_details_flag (lat : Bool) (minChars : Nat) (text : String)
    (hmark : bankMarkerFound (text.data.map toLowerRu) = true)
    (hpass : paymentTermsValidatorLLM true lat minChars text = none) :
    paymentTermsValidatorLLM false lat minChars text
        = some "contains_bank_details" ∧
      paymentTermsValidatorLLM true lat minChars text = none := by
  refine ⟨?_, hpass⟩
  unfold paymentTermsValidatorLLM at hpass ⊢
  by_cases h1 : text = ""
  · rw [if_pos h1] at hpass; exact (Option.some_ne_none _ hpass).elim
  rw [if_neg h1] at hpass ⊢
  by_cases h2 : lenNoSpaces text.data < minChars
  · rw [if_pos h2] at hpass; exact (Option.some_ne_none _ hpass).elim
  rw [if_neg h2] at hpass ⊢
  by_cases h3 : countListItems text.data < 20
  · rw [if_pos h3] at hpass; exact (Option.some_ne_none _ hpass).elim
  rw [if_neg h3] at hpass ⊢
  by_cases h4 : placeholderFound text.data = true
  · rw [if_pos h4] at hpass; exact (Option.some_ne_none _ hpass).elim
  rw [if_neg h4] at hpass ⊢
  dsimp only at hpass ⊢
  by_cases h5 : mixedPartyTerms (text.data.map toLowerRu) = true
  · rw [if_pos h5] at hpass; exact (Option.some_ne_none _ hpass).elim
  rw [if_neg h5] at hpass ⊢
  by_cases h6 : detectRepetition text.data = true
  · rw [if_pos h6] at hpass; exact (Option.some_ne_none _ hpass).elim
  rw [if_neg h6] at hpass ⊢
  by_cases h7 : boilerplateFound (text.data.map toLowerRu) = true
  · rw [if_pos h7] at hpass; exact (Option.some_ne_none _ hpass).elim
  rw [if_neg h7] at hpass ⊢
  by_cases h8 : outOfScopeFound (text.data.map toLowerRu) = true
  · rw [if_pos h8] at hpass; exact (Option.some_ne_none _ hpass).elim
  rw [if_neg h8] at hpass ⊢
  by_cases h9 : (!lat && penaltyFound (text.data.map toLowerRu)) = true
  · rw [if_pos h9] at hpass; exact (Option.some_ne_none _ hpass).elim
  rw [if_neg h9] at hpass ⊢
  rw [if_pos (show (!false && (bankMarkerFound (text.data.map toLowerRu)
    || hasLongDigitRun (text.data.map toLowerRu))) = true by
      simp [hmark])]

/-- Witness for `c9_bank_details_flag`: a 20-item list whose third item
contains `iban` passes every other check (short items, no placeholders,
no repetition, no Cyrillic markers); the flag-`True` validator accepts
it and the flag-`False` validator rejects it with
`contains_bank_details`. -/
theorem c9_bank_details_flag_witness :
    paymentTermsValidatorLLM false false 10
        "1) a\n2) b\n3) iban\n4) c\n5) d\n6) e\n7) f\n8) g\n9) h\n10) i\n11) j\n12) k\n13) l\n14) m\n15) n\n16) o\n17) p\n18) q\n19) r\n20) s"
        = some "contains_bank_details" ∧
      paymentTermsValidatorLLM true false 10
        "1) a\n2) b\n3) iban\n4) c\n5) d\n6) e\n7) f\n8) g\n9) h\n10) i\n11) j\n12) k\n13) l\n14) m\n15) n\n16) o\n17) p\n18) q\n19) r\n20) s"
        = none :=
  c9_bank_details_flag false 10
    "1) a\n2) b\n3) iban\n4) c\n5) d\n6) e\n7) f\n8) g\n9) h\n10) i\n11) j\n12) k\n13) l\n14) m\n15) n\n16) o\n17) p\n18) q\n19) r\n20) s"
    (by decide) (by decide)

end ContractLLM
